import Mathlib

/-!
Verification of the FAT32 read-only filesystem driver (`src/2-fs/fat32`).

The driver is shallowly embedded: machine integers become `Nat` (the source
targets little-endian only and all decodes are explicit little-endian byte
reads in the model), on-disk sectors become `List Nat` (one `Nat` per byte),
fallible operations return `Except Error`, the sector device behind the cache
is a total function from sector numbers to byte lists (the claims under
verification do not concern I/O failure), and Rust loops that are not
structurally bounded take an explicit fuel argument, with `none` meaning the
fuel ran out (so `∀ fuel, … = none` states non-termination of the source
loop).
-/

namespace Fat32

/-- Little-endian 16-bit read from byte list `b` at offset `i` (missing bytes
read as 0, like zero padding). -/
def le16 (b : List Nat) (i : Nat) : Nat :=
  b.getD i 0 + 256 * b.getD (i + 1) 0

/-- Little-endian 32-bit read from byte list `b` at offset `i`. Models the
packed-struct / pointer reinterpretation reads of the source, which `lib.rs`
restricts to little-endian targets. -/
def le32 (b : List Nat) (i : Nat) : Nat :=
  b.getD i 0 + 256 * b.getD (i + 1) 0 + 65536 * b.getD (i + 2) 0 +
    16777216 * b.getD (i + 3) 0

/-- Modelled from the spec: `Cluster` (vfat/cluster.rs is not among the staged
source files; only its uses are). The spec describes it as "an opaque
cluster-number wrapper"; the uses in vfat.rs/dir.rs are `Cluster::from(u32)`
and `.inner() -> u32`, so it is modelled as an identity newtype over `Nat`. -/
structure Cluster where
  inner : Nat
deriving DecidableEq, Repr

/-- `Cluster::from` (identity wrapper construction). -/
def Cluster.fromRaw (n : Nat) : Cluster := ⟨n⟩

/-- Modelled from the spec: the driver's error taxonomy (spec §7).
vfat/error.rs (the `vfat::Error` enum) is not among the staged source files;
the variants below are §7's taxonomy, which also covers every
`io::ErrorKind` value that mbr.rs, vfat.rs, file.rs and dir.rs construct.
`AssertFail` additionally models a Rust `assert!`/`unreachable!` panic. -/
inductive Error where
  | Io
  | BadSignature
  | UnknownBootIndicator (index : Nat)
  | NotFound
  | InvalidInput
  | InvalidData
  | UnexpectedEof
  | AssertFail
deriving DecidableEq, Repr

/-- `Status` from vfat/fat.rs: the decoded meaning of a FAT entry. -/
inductive Status where
  | Free
  | Reserved
  | Data (next : Cluster)
  | Bad
  | Eoc (e : Nat)
deriving DecidableEq, Repr

/-- `FatEntry` from vfat/fat.rs: a raw 32-bit on-disk FAT value. -/
structure FatEntry where
  val : Nat
deriving DecidableEq, Repr

/-- `FatEntry::status` (vfat/fat.rs lines 27-38): mask to the low 28 bits and
match on the ranges of the masked value.  The source's final
`unreachable!()` arm really is unreachable (the mask bounds the scrutinee by
`0x0FFFFFFF`), so the last range is the model's final case. -/
def FatEntry.status (f : FatEntry) : Status :=
  let m := f.val &&& 0x0FFFFFFF
  if m = 0x00000000 then Status.Free
  else if m = 0x00000001 then Status.Reserved
  else if m ≤ 0x0FFFFFEF then Status.Data (Cluster.fromRaw m)
  else if m ≤ 0x0FFFFFF5 then Status.Reserved
  else if m = 0x0FFFFFF6 then Status.Reserved
  else if m = 0x0FFFFFF7 then Status.Bad
  else Status.Eoc m

/-- Boolean test used to state chain hypotheses decidably. -/
def Status.isEoc : Status → Bool
  | Status.Eoc _ => true
  | _ => false

/-- The statuses `read_cluster` accepts (`Data` or `Eoc`). -/
def Status.readable : Status → Bool
  | Status.Data _ => true
  | Status.Eoc _ => true
  | _ => false

/-- `Attributes` from vfat/metadata.rs: the raw attribute byte. -/
structure Attributes where
  raw : Nat
deriving DecidableEq, Repr

/-- `Attributes::directory` (bit 0x10). -/
def Attributes.directory (a : Attributes) : Bool := a.raw &&& 0x10 ≠ 0

/-- `Attributes::lfn`: read-only, hidden, system and volume-id all set. -/
def Attributes.lfn (a : Attributes) : Bool :=
  (a.raw &&& 0x01 ≠ 0) && (a.raw &&& 0x02 ≠ 0) && (a.raw &&& 0x04 ≠ 0) &&
    (a.raw &&& 0x08 ≠ 0)

/-- `Date` from vfat/metadata.rs (raw on-disk u16). -/
structure Date where
  raw : Nat
deriving DecidableEq, Repr

/-- `Time` from vfat/metadata.rs (raw on-disk u16). -/
structure Time where
  raw : Nat
deriving DecidableEq, Repr

/-- `Time::zero`. -/
def Time.zero : Time := ⟨0⟩

/-- `Timestamp` from vfat/metadata.rs. -/
structure Timestamp where
  date : Date
  time : Time
  addtional_in_10ms : Nat
deriving DecidableEq, Repr

/-- `Metadata` from vfat/metadata.rs. -/
structure Metadata where
  attributes : Attributes
  created : Timestamp
  accessed : Timestamp
  modified : Timestamp
deriving DecidableEq, Repr

/-- `VFat` from vfat/vfat.rs.  The `CachedDevice` field is abstracted to the
total function `sectorData`: `CachedDevice::get` hands back the cached bytes
of a logical sector, and the claims below do not concern device I/O failure,
so a successful `get sector` is `sectorData sector`. -/
structure VFat where
  bytes_per_sector : Nat
  sectors_per_cluster : Nat
  sectors_per_fat : Nat
  fat_start_sector : Nat
  data_start_sector : Nat
  root_dir_cluster : Cluster
  sectorData : Nat → List Nat

/-- `VFat::cluster_size`. -/
def VFat.cluster_size (v : VFat) : Nat :=
  v.sectors_per_cluster * v.bytes_per_sector

/-- `VFat::fat_entry` (vfat/vfat.rs lines 149-162): locate the 4-byte entry
for `cluster` inside the FAT region and reinterpret the cached bytes as a
little-endian u32 (`FAT_ENTRY_SIZE = 4`). -/
def VFat.fat_entry (v : VFat) (cluster : Nat) : FatEntry :=
  let sector_offset := cluster * 4 / v.bytes_per_sector
  let byte_offset := cluster * 4 % v.bytes_per_sector
  ⟨le32 (v.sectorData (v.fat_start_sector + sector_offset)) byte_offset⟩

/-- The sector-by-sector copy loop inside `VFat::read_cluster`
(vfat/vfat.rs lines 96-111): `i` is the loop variable, `cnt` the number of
iterations left (`sectors_per_cluster - sector_offset` at the top call),
`bufLen` the caller buffer space left.  Only the first sector touched
(`i = sector_offset`) is read from `offset_in_sector`; the copy out of a
sector is `min` of what the sector still holds and the buffer space
(`(&sector[..]).read(buf)`), and the loop returns early once the buffer is
full. -/
def readSecLoop (v : VFat) (start_sector sector_offset offset_in_sector : Nat) :
    Nat → Nat → Nat → List Nat
  | _, 0, _ => []
  | i, cnt + 1, bufLen =>
    let sector := v.sectorData (start_sector + i)
    let chunk := if i = sector_offset then sector.drop offset_in_sector else sector
    let bytes := chunk.take bufLen
    if bufLen - bytes.length = 0 then bytes
    else
      bytes ++ readSecLoop v start_sector sector_offset offset_in_sector
        (i + 1) cnt (bufLen - bytes.length)

/-- `VFat::read_cluster` (vfat/vfat.rs lines 81-118): require the cluster's
FAT status to be `Data` or `Eoc`, compute the cluster's first sector, and copy
from `offset` onwards until the buffer is full or the cluster is exhausted.
Returns the bytes copied (their count is the source's return value).  The
source's `assert!(sector_offset < sectors_per_cluster)` panic is
`Error.AssertFail`. -/
def VFat.read_cluster (v : VFat) (cluster : Nat) (offset : Nat) (bufLen : Nat) :
    Except Error (List Nat) :=
  match (v.fat_entry cluster).status with
  | Status.Data _ | Status.Eoc _ =>
    let start_sector := v.data_start_sector + v.sectors_per_cluster * (cluster - 2)
    let sector_offset := offset / v.bytes_per_sector
    let offset_in_sector := offset % v.bytes_per_sector
    if sector_offset < v.sectors_per_cluster then
      Except.ok (readSecLoop v start_sector sector_offset offset_in_sector
        sector_offset (v.sectors_per_cluster - sector_offset) bufLen)
    else Except.error Error.AssertFail
  | _ => Except.error Error.InvalidInput

/-- `File` from vfat/file.rs (the filesystem back-reference is passed
separately to each operation; names are unicode-scalar lists). -/
structure File where
  long_name : Option (List Nat)
  short_name : List Nat
  metadata : Metadata
  file_size : Nat
  absolute_offset : Nat
  start_cluster : Nat
  curr_cluster : Nat
deriving Repr

/-- The `while !curr_buf.is_empty()` loop of `io::Read::read for File`
(vfat/file.rs lines 49-80), with explicit fuel (`none` = the loop ran out of
fuel, i.e. this many iterations did not finish it).  `acc` is the data
already copied to the caller's buffer, `bufLen` the space left in it.  Each
iteration reads from `curr_cluster` at `absolute_offset % cluster_size`,
clamps the count so `absolute_offset` never passes `file_size`, then follows
the FAT entry of `curr_cluster`: `Eoc` ends the file (or is `UnexpectedEof`
when data is still owed), `Data(next)` moves to `next` only when the offset
crossed a cluster boundary, anything else is `InvalidData`. -/
def readLoop (v : VFat) : Nat → File → Nat → List Nat →
    Option (Except Error (List Nat) × File)
  | 0, _, _, _ => none
  | fuel + 1, f, bufLen, acc =>
    if bufLen = 0 then some (Except.ok acc, f)
    else
      let offset_in_cluster := f.absolute_offset % v.cluster_size
      match v.read_cluster f.curr_cluster offset_in_cluster bufLen with
      | Except.error e => some (Except.error e, f)
      | Except.ok bytes0 =>
        let n := if f.absolute_offset + bytes0.length > f.file_size
                 then f.file_size - f.absolute_offset else bytes0.length
        let f1 := { f with absolute_offset := f.absolute_offset + n }
        let acc1 := acc ++ bytes0.take n
        let rem := bufLen - n
        match (v.fat_entry f.curr_cluster).status with
        | Status.Eoc _ =>
          if rem > 0 ∧ f1.absolute_offset < f1.file_size then
            some (Except.error Error.UnexpectedEof, f1)
          else some (Except.ok acc1, f1)
        | Status.Data next =>
          let f2 := if f1.absolute_offset / v.cluster_size >
                       (f1.absolute_offset - n) / v.cluster_size
                    then { f1 with curr_cluster := next.inner } else f1
          readLoop v fuel f2 rem acc1
        | _ => some (Except.error Error.InvalidData, f1)

/-- `io::Read::read for File` (vfat/file.rs lines 41-83): at end of file
(`absolute_offset = file_size`) return `Ok` with zero bytes, otherwise run
the copy loop. -/
def File.read (v : VFat) (f : File) (bufLen : Nat) (fuel : Nat) :
    Option (Except Error (List Nat) × File) :=
  if f.absolute_offset = f.file_size then some (Except.ok [], f)
  else readLoop v fuel f bufLen []

/-- `SeekFrom` (std::io), as consumed by `File::seek`: `Start` carries a u64,
`End` and `Current` carry i64 deltas. -/
inductive SeekFrom where
  | Start (n : Nat)
  | End (n : Int)
  | Current (n : Int)
deriving DecidableEq, Repr

/-- The chain walk of `io::Seek::seek for File` (vfat/file.rs lines 138-156):
from `(curr_cluster, curr_offset)`, while `curr_offset + cluster_size ≤
target` follow the FAT; an `Eoc` exactly at the target is tolerated when the
target is `file_size`, otherwise `UnexpectedEof`; a non-`Data`/`Eoc` status
is `InvalidData`.  Returns the cluster containing the target.  Fuel as in
`readLoop`. -/
def seekWalk (v : VFat) (file_size target : Nat) :
    Nat → Nat → Nat → Option (Except Error Nat)
  | 0, _, _ => none
  | fuel + 1, curr_cluster, curr_offset =>
    if curr_offset + v.cluster_size ≤ target then
      match (v.fat_entry curr_cluster).status with
      | Status.Eoc _ =>
        if curr_offset + v.cluster_size = target ∧ target = file_size then
          some (Except.ok curr_cluster)
        else some (Except.error Error.UnexpectedEof)
      | Status.Data next =>
        seekWalk v file_size target fuel next.inner (curr_offset + v.cluster_size)
      | _ => some (Except.error Error.InvalidData)
    else some (Except.ok curr_cluster)

/-- The candidate-offset resolution at the top of `io::Seek::seek for File`
(vfat/file.rs lines 111-134): each mode resolves to an absolute offset,
rejected with `InvalidInput` when negative or greater than `file_size`.
All integer arithmetic is within the ranges the source computes
losslessly. -/
def seekCandidate (f : File) (pos : SeekFrom) : Except Error Nat :=
  match pos with
  | SeekFrom.Start start =>
    if start > f.file_size then Except.error Error.InvalidInput
    else Except.ok start
  | SeekFrom.End e =>
    if 0 < e ∨ (f.file_size : Int) < -e then Except.error Error.InvalidInput
    else Except.ok ((f.file_size : Int) + e).toNat
  | SeekFrom.Current c =>
    let a : Int := (f.absolute_offset : Int) + c
    if a < 0 ∨ (f.file_size : Int) < a then Except.error Error.InvalidInput
    else Except.ok a.toNat

/-- `io::Seek::seek for File` (vfat/file.rs lines 110-162): resolve `pos` to
a candidate absolute offset, then walk the chain from `start_cluster` and,
on success, update `absolute_offset` and `curr_cluster` and return the new
offset. -/
def File.seek (v : VFat) (f : File) (pos : SeekFrom) (fuel : Nat) :
    Option (Except Error Nat × File) :=
  match seekCandidate f pos with
  | Except.error e => some (Except.error e, f)
  | Except.ok absolute_offset =>
    match seekWalk v f.file_size absolute_offset fuel f.start_cluster 0 with
    | none => none
    | some (Except.error e) => some (Except.error e, f)
    | some (Except.ok cc) =>
      some (Except.ok absolute_offset,
        { f with absolute_offset := absolute_offset, curr_cluster := cc })

/-- `PartitionEntry` from mbr.rs (16 bytes; the CHS fields are kept as raw
bytes, as the source never reads them). -/
structure PartitionEntry where
  boot_indicator : Nat
  starting_chs : List Nat
  partition_type : Nat
  ending_chs : List Nat
  relative_sector : Nat
  total_sectors : Nat
deriving DecidableEq, Repr, Inhabited

/-- `MasterBootRecord` from mbr.rs, as laid out in the 512-byte sector
(`#[repr(C, packed)]`: 436-byte bootstrap, 10-byte disk id, 4 partition
entries of 16 bytes at offset 446, 2-byte signature at offset 510). -/
structure MasterBootRecord where
  bootstrap : List Nat
  disk_id : List Nat
  partitions : List PartitionEntry
  signature : List Nat
deriving DecidableEq, Repr

/-- Decode one 16-byte partition-table slot at offset `off` of the sector. -/
def parsePartitionEntry (buf : List Nat) (off : Nat) : PartitionEntry :=
  { boot_indicator := buf.getD off 0
    starting_chs := [buf.getD (off + 1) 0, buf.getD (off + 2) 0, buf.getD (off + 3) 0]
    partition_type := buf.getD (off + 4) 0
    ending_chs := [buf.getD (off + 5) 0, buf.getD (off + 6) 0, buf.getD (off + 7) 0]
    relative_sector := le32 buf (off + 8)
    total_sectors := le32 buf (off + 12) }

/-- The `transmute::<[u8; 512], MasterBootRecord>` of mbr.rs line 65 as an
explicit little-endian decode of the packed layout. -/
def parseMBR (buf : List Nat) : MasterBootRecord :=
  { bootstrap := buf.take 436
    disk_id := (buf.drop 436).take 10
    partitions := [parsePartitionEntry buf 446, parsePartitionEntry buf 462,
                   parsePartitionEntry buf 478, parsePartitionEntry buf 494]
    signature := [buf.getD 510 0, buf.getD 511 0] }

/-- The boot-indicator scan of `MasterBootRecord::from` (mbr.rs lines 71-75):
`for (i, p) in partitions.iter().enumerate()`, failing at the first slot
whose boot indicator is neither `0x00` nor `0x80`. -/
def bootCheck : List PartitionEntry → Nat → Except Error Unit
  | [], _ => Except.ok ()
  | p :: ps, i =>
    if p.boot_indicator = 0x00 ∨ p.boot_indicator = 0x80 then bootCheck ps (i + 1)
    else Except.error (Error.UnknownBootIndicator i)

/-- `MasterBootRecord::from` (mbr.rs lines 51-78), given the 512 bytes read
from physical sector 0: check the trailing `0x55 0xAA` signature, then the
boot indicators of all four slots. -/
def MasterBootRecord.fromBytes (buf : List Nat) : Except Error MasterBootRecord :=
  let mbr := parseMBR buf
  if mbr.signature = [0x55, 0xAA] then
    match bootCheck mbr.partitions 0 with
    | Except.ok () => Except.ok mbr
    | Except.error e => Except.error e
  else Except.error Error.BadSignature

/-- The partition search of `VFat::from` (vfat.rs lines 36-40):
`partitions.iter().find(|p| matches!(p.partition_type, 0xB | 0xC))`, with
`NotFound` when no slot matches. -/
def findFat32Partition : List PartitionEntry → Except Error PartitionEntry
  | [] => Except.error Error.NotFound
  | p :: ps =>
    if p.partition_type = 0xB ∨ p.partition_type = 0xC then Except.ok p
    else findFat32Partition ps

/-- The partition-locating prefix of mounting (`MasterBootRecord::from`
followed by the FAT32 partition search of `VFat::from`), on the 512 bytes of
physical sector 0. -/
def mountLocate (buf : List Nat) : Except Error PartitionEntry :=
  match MasterBootRecord.fromBytes buf with
  | Except.error e => Except.error e
  | Except.ok mbr => findFat32Partition mbr.partitions

/-- `CacheEntry` from vfat/cache.rs. -/
structure CacheEntry where
  data : List Nat
  dirty : Bool
deriving DecidableEq, Repr

/-- `Partition` from vfat/cache.rs. -/
structure Partition where
  start : Nat
  sector_size : Nat
deriving DecidableEq, Repr

/-- `CachedDevice` from vfat/cache.rs: the boxed `BlockDevice` becomes its
sector size plus a total read function (`read_all_sector` appends one full
physical sector; the claims under verification do not concern I/O failure),
and the `HashMap<u64, CacheEntry>` becomes an association list keyed by
logical sector number. -/
structure CachedDevice where
  device_sector_size : Nat
  deviceRead : Nat → List Nat
  cache : List (Nat × CacheEntry)
  partition : Partition

/-- Association-list lookup standing for `HashMap::entry`'s occupied test. -/
def cacheLookup (c : List (Nat × CacheEntry)) (sector : Nat) : Option CacheEntry :=
  match c.find? (fun kv => kv.1 = sector) with
  | some kv => some kv.2
  | none => none

/-- `CachedDevice::virtual_to_physical` (cache.rs lines 62-74). -/
def CachedDevice.virtual_to_physical (d : CachedDevice) (virt : Nat) : Nat × Nat :=
  if d.device_sector_size = d.partition.sector_size then (virt, 1)
  else if virt < d.partition.start then (virt, 1)
  else
    let factor := d.partition.sector_size / d.device_sector_size
    let logical_offset := virt - d.partition.start
    let physical_offset := logical_offset * factor
    (d.partition.start + physical_offset, factor)

/-- The physical reads filling a missing cache entry (cache.rs lines
109-113): `factor` calls to `read_all_sector`, appended in order. -/
def fillReads (d : CachedDevice) (physical_start : Nat) : Nat → List Nat
  | 0 => []
  | k + 1 => fillReads d physical_start k ++ d.deviceRead (physical_start + k)

/-- `CachedDevice::get_helper` (cache.rs lines 103-120): return the cached
entry for `sector`, or read it from the device and insert it — the source
inserts the fresh entry with `dirty: true`.  Returns the entry together with
the updated device state. -/
def CachedDevice.get_helper (d : CachedDevice) (sector : Nat) :
    CacheEntry × CachedDevice :=
  match cacheLookup d.cache sector with
  | some e => (e, d)
  | none =>
    let pf := d.virtual_to_physical sector
    let buf := fillReads d pf.1 pf.2
    let e : CacheEntry := { data := buf, dirty := true }
    (e, { d with cache := (sector, e) :: d.cache })

/-- `CachedDevice::get` (cache.rs lines 99-101): `get_helper` without
touching the dirty flag of the returned entry. -/
def CachedDevice.get (d : CachedDevice) (sector : Nat) :
    List Nat × CachedDevice :=
  let ed := d.get_helper sector
  (ed.1.data, ed.2)

/-- `CachedDevice::get_mut` (cache.rs lines 86-91): `get_helper`, then set
the entry's dirty flag (the map holds the entry, so the flag is updated in
the cache). -/
def CachedDevice.get_mut (d : CachedDevice) (sector : Nat) :
    List Nat × CachedDevice :=
  let ed := d.get_helper sector
  let e' := { ed.1 with dirty := true }
  (e'.data,
    { ed.2 with
      cache := ed.2.cache.map (fun kv => if kv.1 = sector then (kv.1, e') else kv) })

/-- `std::char::decode_utf16` on a list of 16-bit code units, collected as in
dir.rs `VFatLfnDirEntry::parse_str` (`collect::<Result<String, _>>`): the
unicode scalar values, or `none` at the first unpaired surrogate. -/
def decodeUtf16 : List Nat → Option (List Nat)
  | [] => some []
  | u :: rest =>
    if u < 0xD800 ∨ 0xDFFF < u then
      match decodeUtf16 rest with
      | some s => some (u :: s)
      | none => none
    else if u ≤ 0xDBFF then
      match rest with
      | v :: rest' =>
        if 0xDC00 ≤ v ∧ v ≤ 0xDFFF then
          match decodeUtf16 rest' with
          | some s => some ((0x10000 + (u - 0xD800) * 0x400 + (v - 0xDC00)) :: s)
          | none => none
        else none
      | [] => none
    else none

/-- `std::str::from_utf8` on a byte list, as unicode scalar values: standard
UTF-8 validation (continuation ranges, overlong and surrogate exclusion,
maximum U+10FFFF), `none` on invalid input. -/
def utf8Decode : List Nat → Option (List Nat)
  | [] => some []
  | b0 :: rest =>
    if b0 ≤ 0x7F then
      match utf8Decode rest with
      | some s => some (b0 :: s)
      | none => none
    else if 0xC2 ≤ b0 ∧ b0 ≤ 0xDF then
      match rest with
      | b1 :: rest' =>
        if 0x80 ≤ b1 ∧ b1 ≤ 0xBF then
          match utf8Decode rest' with
          | some s => some (((b0 - 0xC0) * 64 + (b1 - 0x80)) :: s)
          | none => none
        else none
      | [] => none
    else if 0xE0 ≤ b0 ∧ b0 ≤ 0xEF then
      match rest with
      | b1 :: b2 :: rest' =>
        if (if b0 = 0xE0 then 0xA0 else 0x80) ≤ b1 ∧
            b1 ≤ (if b0 = 0xED then 0x9F else 0xBF) ∧
            0x80 ≤ b2 ∧ b2 ≤ 0xBF then
          match utf8Decode rest' with
          | some s => some (((b0 - 0xE0) * 4096 + (b1 - 0x80) * 64 + (b2 - 0x80)) :: s)
          | none => none
        else none
      | _ => none
    else if 0xF0 ≤ b0 ∧ b0 ≤ 0xF4 then
      match rest with
      | b1 :: b2 :: b3 :: rest' =>
        if (if b0 = 0xF0 then 0x90 else 0x80) ≤ b1 ∧
            b1 ≤ (if b0 = 0xF4 then 0x8F else 0xBF) ∧
            0x80 ≤ b2 ∧ b2 ≤ 0xBF ∧ 0x80 ≤ b3 ∧ b3 ≤ 0xBF then
          match utf8Decode rest' with
          | some s => some (((b0 - 0xF0) * 262144 + (b1 - 0x80) * 4096 +
              (b2 - 0x80) * 64 + (b3 - 0x80)) :: s)
          | none => none
        else none
      | _ => none
    else none

/-- A 32-byte directory record, as the union `VFatDirEntry` overlays it: the
record's bytes, with each shape's fields read at its packed offsets. -/
def recId (r : List Nat) : Nat := r.getD 0 0

/-- The attribute byte, at offset 11 in all three shapes. -/
def recAttributes (r : List Nat) : Attributes := ⟨r.getD 11 0⟩

/-- `VFatLfnDirEntry::last_logical`: bit 0x40 of the sequence number. -/
def lfnLastLogical (r : List Nat) : Bool := recId r &&& 0x40 ≠ 0

/-- `VFatLfnDirEntry::position`: low five bits of the sequence number. -/
def lfnPosition (r : List Nat) : Nat := recId r &&& 0x1F

/-- `name_part1` (5 UCS-2 units at offset 1), `name_part2` (6 at 14) and
`name_part3` (2 at 28) of an LFN record. -/
def lfnUnits (r : List Nat) : List (List Nat) :=
  [[le16 r 1, le16 r 3, le16 r 5, le16 r 7, le16 r 9],
   [le16 r 14, le16 r 16, le16 r 18, le16 r 20, le16 r 22, le16 r 24],
   [le16 r 28, le16 r 30]]

/-- `VFatLfnDirEntry::str_len` and `parse_str`: truncate at the first
`0x0000`/`0xFFFF` unit and decode as UTF-16. -/
def lfnPartName (units : List Nat) : Option (List Nat) :=
  decodeUtf16 (units.takeWhile (fun u => !(u == 0x0000 || u == 0xFFFF)))

/-- `VFatLfnDirEntry::name`: the three decoded parts concatenated, `none` at
the first decode failure. -/
def lfnName (r : List Nat) : Option (List Nat) :=
  match lfnUnits r with
  | [u1, u2, u3] =>
    match lfnPartName u1, lfnPartName u2, lfnPartName u3 with
    | some p1, some p2, some p3 => some (p1 ++ p2 ++ p3)
    | _, _, _ => none
  | _ => none

/-- `VFatRegularDirEntry::name` (dir.rs lines 55-67): the 8-byte name and
3-byte extension, each truncated at the first `0x00`/`0x20` byte and decoded
as UTF-8; an empty name is the `InvalidData` "empty filename" error
(`none`); an empty extension is omitted, otherwise joined with `'.'`. -/
def regularName (r : List Nat) : Option (List Nat) :=
  let nameBytes := (r.take 8).takeWhile (fun b => !(b == 0x00 || b == 0x20))
  match utf8Decode nameBytes with
  | none => none
  | some nm =>
    if nm.length = 0 then none
    else
      let extBytes := ((r.drop 8).take 3).takeWhile (fun b => !(b == 0x00 || b == 0x20))
      match utf8Decode extBytes with
      | none => none
      | some ext => some (if ext.length = 0 then nm else nm ++ [0x2E] ++ ext)

/-- `VFatRegularDirEntry::first_cluster`: high u16 at offset 20, low u16 at
offset 26. -/
def regFirstCluster (r : List Nat) : Cluster :=
  Cluster.fromRaw ((le16 r 20) <<< 16 ||| le16 r 26)

/-- `VFatRegularDirEntry::metadata` (dir.rs lines 69-88). -/
def regMetadata (r : List Nat) : Metadata :=
  { attributes := recAttributes r
    created := { date := ⟨le16 r 16⟩, time := ⟨le16 r 14⟩,
                 addtional_in_10ms := r.getD 13 0 }
    accessed := { date := ⟨le16 r 18⟩, time := Time.zero, addtional_in_10ms := 0 }
    modified := { date := ⟨le16 r 24⟩, time := ⟨le16 r 22⟩, addtional_in_10ms := 0 } }

/-- `Entry` as `EntryIter::next` (dir.rs lines 245-278) constructs it in this
snapshot of the source: the `File` arm is the field-less literal
`Entry::File(File {})` (dir.rs line 271), so the variant carries nothing;
the `Dir` arm carries the fields of `Dir` (the filesystem back-reference is
kept out of the per-entry data). -/
inductive Entry where
  | File : Entry
  | Dir (long_name : Option (List Nat)) (short_name : List Nat)
      (metadata : Metadata) (start_cluster : Cluster) : Entry
deriving DecidableEq, Repr

/-- `traits::Entry::name for Entry` (entry.rs lines 20-25): the long name if
present, else the short name, for a `Dir`; for a `File` the source is
`todo!()` — a panic, modelled as `none`. -/
def Entry.name : Entry → Option (List Nat)
  | Entry.File => none
  | Entry.Dir long_name short_name _ _ => some (long_name.getD short_name)

/-- The per-fragment pass of `EntryIter::parse_lfn` (dir.rs lines 291-301):
the fragments in reverse storage order, with the `assert!` that fragment `i`
is an LFN record at position `i + 1`, their names decoded and concatenated.
Any assertion or decode failure is a panic (`Except.error ()`), since the
caller unwraps. -/
def lfnRun : List (List Nat) → Nat → Except Unit (List Nat)
  | [], _ => Except.ok []
  | r :: rs, i =>
    if (recAttributes r).lfn ∧ lfnPosition r = i + 1 then
      match lfnName r with
      | some nm =>
        match lfnRun rs (i + 1) with
        | Except.ok rest => Except.ok (nm ++ rest)
        | Except.error e => Except.error e
      | none => Except.error ()
    else Except.error ()

/-- `EntryIter::parse_lfn` (dir.rs lines 283-304): assert the starting record
is the first-encountered (highest-position) LFN fragment with room for the
run plus a regular entry, then fold the run in reverse order.  Returns the
long name and the number of LFN records consumed. -/
def parseLfn (entries : List (List Nat)) (start_entry : Nat) :
    Except Unit (List Nat × Nat) :=
  let start := entries.getD start_entry []
  if (recAttributes start).lfn ∧ lfnLastLogical start ∧ 1 ≤ lfnPosition start ∧
      lfnPosition start + 1 ≤ entries.length - start_entry then
    match lfnRun (((entries.drop start_entry).take (lfnPosition start)).reverse) 0 with
    | Except.ok nm => Except.ok (nm, lfnPosition start)
    | Except.error e => Except.error e
  else Except.error ()

/-- One call to `EntryIter::next` (dir.rs lines 245-278): skip deleted
records, stop at ID `0x00` or at the end of the record list, otherwise
decode an optional LFN run followed by a regular record (whose ID byte the
source does not re-check) into an `Entry`.  Yields the entry and the next
index; `Except.error ()` is a panic (failed assert, failed `unwrap`, or an
out-of-bounds index).  Structurally bounded by `fuel` (the deleted-entry
skip); `entries.length + 1` fuel always suffices. -/
def entriesNext : Nat → List (List Nat) → Nat →
    Except Unit (Option (Entry × Nat))
  | 0, _, _ => Except.error ()
  | fuel + 1, entries, next =>
    if next < entries.length then
      let r := entries.getD next []
      if recId r = 0x00 then Except.ok none
      else if recId r = 0xE5 then entriesNext fuel entries (next + 1)
      else
        let step : Except Unit (Option (List Nat) × Nat) :=
          if (recAttributes r).lfn then
            match parseLfn entries next with
            | Except.ok (nm, num) => Except.ok (some nm, next + num)
            | Except.error e => Except.error e
          else Except.ok (none, next)
        match step with
        | Except.error e => Except.error e
        | Except.ok (long_name, idx) =>
          if idx < entries.length then
            let regular := entries.getD idx []
            if (recAttributes regular).directory then
              match regularName regular with
              | some sn =>
                Except.ok (some (Entry.Dir long_name sn (regMetadata regular)
                  (regFirstCluster regular), idx + 1))
              | none => Except.error ()
            else Except.ok (some (Entry.File, idx + 1))
          else Except.error ()
    else Except.ok none

/-- Full directory iteration from index `next`: the list of yielded entries
(`Except.error ()` when some `next()` call panics). -/
def collectFrom : Nat → List (List Nat) → Nat → Except Unit (List Entry)
  | 0, _, _ => Except.error ()
  | fuel + 1, entries, next =>
    match entriesNext (entries.length + 1) entries next with
    | Except.error e => Except.error e
    | Except.ok none => Except.ok []
    | Except.ok (some (e, next')) =>
      match collectFrom fuel entries next' with
      | Except.ok es => Except.ok (e :: es)
      | Except.error e2 => Except.error e2

/-- Iterating a directory's record list from the start, as
`Dir::entries` + exhausting the iterator does. -/
def collectEntries (entries : List (List Nat)) : Except Unit (List Entry) :=
  collectFrom (entries.length + 1) entries 0

/-- `str::eq_ignore_ascii_case` on unicode-scalar lists: equal length and
equal elements after mapping ASCII `A`-`Z` to `a`-`z` (non-ASCII scalars
compare exactly, as their UTF-8 bytes do in the source). -/
def toAsciiLower (c : Nat) : Nat :=
  if 0x41 ≤ c ∧ c ≤ 0x5A then c + 0x20 else c

/-- Elementwise case-insensitive comparison. -/
def eqIgnoreAsciiCase : List Nat → List Nat → Bool
  | [], [] => true
  | a :: l1, b :: l2 =>
    (toAsciiLower a = toAsciiLower b : Bool) && eqIgnoreAsciiCase l1 l2
  | _, _ => false

/-- The `Iterator::find` loop inside `Dir::find` (dir.rs lines 207-209):
yield entries one at a time, calling `Entry::name` on each — which panics on
a `File` entry in this snapshot — until the case-insensitive comparison
succeeds. -/
def findLoop : Nat → List (List Nat) → Nat → List Nat →
    Except Unit (Option Entry)
  | 0, _, _, _ => Except.error ()
  | fuel + 1, entries, next, nm =>
    match entriesNext (entries.length + 1) entries next with
    | Except.error e => Except.error e
    | Except.ok none => Except.ok none
    | Except.ok (some (e, next')) =>
      match e.name with
      | none => Except.error ()
      | some en =>
        if eqIgnoreAsciiCase en nm then Except.ok (some e)
        else findLoop fuel entries next' nm

/-- `Dir::find` (dir.rs lines 199-210) on a directory's record list and a
lookup name already known to be valid text: the found entry, `NotFound` when
the iteration is exhausted, `Except.error ()` when the iteration panics. -/
def dirFind (entries : List (List Nat)) (nm : List Nat) :
    Except Unit (Except Error Entry) :=
  match findLoop (entries.length + 1) entries 0 nm with
  | Except.error e => Except.error e
  | Except.ok none => Except.ok (Except.error Error.NotFound)
  | Except.ok (some e) => Except.ok (Except.ok e)

/-- The first sector of a cluster (`VFat::cluster_start_sector`,
vfat.rs lines 168-170). -/
def VFat.cluster_start_sector (v : VFat) (cluster : Nat) : Nat :=
  v.data_start_sector + v.sectors_per_cluster * (cluster - 2)

/-- The device bytes of `cnt` consecutive sectors starting at `base + i`
(specification-side helper for stating what a cluster holds). -/
def sectorsFrom (v : VFat) (base : Nat) : Nat → Nat → List Nat
  | _, 0 => []
  | i, cnt + 1 => v.sectorData (base + i) ++ sectorsFrom v base (i + 1) cnt

/-- All bytes of a cluster, in sector order. -/
def VFat.clusterBytes (v : VFat) (cluster : Nat) : List Nat :=
  sectorsFrom v (v.cluster_start_sector cluster) 0 v.sectors_per_cluster

/-- All bytes of a cluster chain, in chain order. -/
def chainBytes (v : VFat) : List Nat → List Nat
  | [] => []
  | c :: cs => v.clusterBytes c ++ chainBytes v cs

/-- The bytes of a file stored on chain `L` with size `fs`. -/
def fileContent (v : VFat) (L : List Nat) (fs : Nat) : List Nat :=
  (chainBytes v L).take fs

/-- `L` is the exact cluster chain of a file of size `fs`: nonempty, each
link's FAT entry points at the next cluster, the last link's FAT entry is
end-of-chain, and `fs` needs exactly `L.length` clusters. -/
def ChainExact (v : VFat) (L : List Nat) (fs : Nat) : Prop :=
  0 < L.length ∧
  (∀ i, i < L.length - 1 →
    (v.fat_entry (L.getD i 0)).status = Status.Data ⟨L.getD (i + 1) 0⟩) ∧
  (v.fat_entry (L.getD (L.length - 1) 0)).status.isEoc = true ∧
  (L.length - 1) * v.cluster_size < fs ∧ fs ≤ L.length * v.cluster_size

/-- Every data sector of every cluster of `L` holds exactly
`bytes_per_sector` bytes. -/
def SectorsWF (v : VFat) (L : List Nat) : Prop :=
  ∀ j, j < L.length → ∀ i, i < v.sectors_per_cluster →
    (v.sectorData (v.cluster_start_sector (L.getD j 0) + i)).length =
      v.bytes_per_sector

/-- The decode table claimed for `FatEntry::status`, phrased on the low 28
bits of the raw value. -/
def fatStatusSpec (n : Nat) : Prop :=
  (FatEntry.status ⟨n⟩ = FatEntry.status ⟨n % 2 ^ 28⟩) ∧
  (n % 2 ^ 28 = 0x0000000 → FatEntry.status ⟨n⟩ = Status.Free) ∧
  (n % 2 ^ 28 = 0x0000001 → FatEntry.status ⟨n⟩ = Status.Reserved) ∧
  (0x0000002 ≤ n % 2 ^ 28 → n % 2 ^ 28 ≤ 0x0FFFFFEF →
    FatEntry.status ⟨n⟩ = Status.Data ⟨n % 2 ^ 28⟩) ∧
  (0x0FFFFFF0 ≤ n % 2 ^ 28 → n % 2 ^ 28 ≤ 0x0FFFFFF6 →
    FatEntry.status ⟨n⟩ = Status.Reserved) ∧
  (n % 2 ^ 28 = 0x0FFFFFF7 → FatEntry.status ⟨n⟩ = Status.Bad) ∧
  (0x0FFFFFF8 ≤ n % 2 ^ 28 → FatEntry.status ⟨n⟩ = Status.Eoc (n % 2 ^ 28))

/-- A partition slot's boot indicator is one of the two valid values. -/
def goodBoot (p : PartitionEntry) : Prop :=
  p.boot_indicator = 0x00 ∨ p.boot_indicator = 0x80

/-- A partition slot is a FAT32 variant. -/
def isFat32Type (p : PartitionEntry) : Prop :=
  p.partition_type = 0x0B ∨ p.partition_type = 0x0C

/-- The 512-byte record ends with the `0x55 0xAA` signature. -/
def sigOk (buf : List Nat) : Prop :=
  buf.getD 510 0 = 0x55 ∧ buf.getD 511 0 = 0xAA

/-- The claimed behaviour of the partition-locating prefix of mounting, for
one 512-byte sector-0 image `buf`. -/
def mbrLocateSpec (buf : List Nat) : Prop :=
  (mountLocate buf = Except.error Error.BadSignature ↔ ¬sigOk buf) ∧
  (∀ i, mountLocate buf = Except.error (Error.UnknownBootIndicator i) ↔
    sigOk buf ∧ i < 4 ∧ ¬goodBoot ((parseMBR buf).partitions.getD i default) ∧
      ∀ j, j < i → goodBoot ((parseMBR buf).partitions.getD j default)) ∧
  (mountLocate buf = Except.error Error.NotFound ↔
    sigOk buf ∧ (∀ j, j < 4 → goodBoot ((parseMBR buf).partitions.getD j default)) ∧
      ∀ j, j < 4 → ¬isFat32Type ((parseMBR buf).partitions.getD j default)) ∧
  (∀ p, mountLocate buf = Except.ok p ↔
    sigOk buf ∧ (∀ j, j < 4 → goodBoot ((parseMBR buf).partitions.getD j default)) ∧
      ∃ i, i < 4 ∧ isFat32Type ((parseMBR buf).partitions.getD i default) ∧
        p = (parseMBR buf).partitions.getD i default ∧
        ∀ j, j < i → ¬isFat32Type ((parseMBR buf).partitions.getD j default))

/-- Successful seek to `file_size` via mode `pos`: `Ok` with the new offset,
the offset updated, some cluster of the chain current. -/
def seekToEndOk (v : VFat) (f : File) (pos : SeekFrom) (fuel : Nat) : Prop :=
  ∃ cc, File.seek v f pos fuel =
    some (Except.ok f.file_size,
      { f with absolute_offset := f.file_size, curr_cluster := cc })

/-- The claimed seek behaviour of claim C5 for one handle: all three modes
succeed at a candidate of exactly `file_size`; a candidate past `file_size`
or (via `End`/`Current`) below zero is `InvalidInput` with the handle
untouched. -/
def seekSpec (v : VFat) (f : File) (fuel : Nat) : Prop :=
  seekToEndOk v f (SeekFrom.Start f.file_size) fuel ∧
  seekToEndOk v f (SeekFrom.End 0) fuel ∧
  seekToEndOk v f (SeekFrom.Current ((f.file_size : Int) - (f.absolute_offset : Int))) fuel ∧
  (∀ n, f.file_size < n →
    File.seek v f (SeekFrom.Start n) fuel = some (Except.error Error.InvalidInput, f)) ∧
  (∀ e : Int, (f.file_size : Int) < (f.file_size : Int) + e →
    File.seek v f (SeekFrom.End e) fuel = some (Except.error Error.InvalidInput, f)) ∧
  (∀ e : Int, (f.file_size : Int) + e < 0 →
    File.seek v f (SeekFrom.End e) fuel = some (Except.error Error.InvalidInput, f)) ∧
  (∀ c : Int, (f.file_size : Int) < (f.absolute_offset : Int) + c →
    File.seek v f (SeekFrom.Current c) fuel = some (Except.error Error.InvalidInput, f)) ∧
  (∀ c : Int, (f.absolute_offset : Int) + c < 0 →
    File.seek v f (SeekFrom.Current c) fuel = some (Except.error Error.InvalidInput, f))

/-- An all-zero metadata value for concrete test handles. -/
def emptyMetadata : Metadata :=
  { attributes := ⟨0⟩
    created := ⟨⟨0⟩, ⟨0⟩, 0⟩
    accessed := ⟨⟨0⟩, ⟨0⟩, 0⟩
    modified := ⟨⟨0⟩, ⟨0⟩, 0⟩ }

/-- Mount state exhibiting the `File::read` non-termination: 8-byte sectors,
one sector per cluster, FAT at sector 0 (so cluster `c`'s entry lives in
sector `c / 2`), data region at sector 10.  The FAT maps cluster 2 to
`Data(3)` and cluster 3 to `Eoc`, so the chain `[2, 3]` is finite and
acyclic. -/
def vC3 : VFat :=
  { bytes_per_sector := 8
    sectors_per_cluster := 1
    sectors_per_fat := 1
    fat_start_sector := 0
    data_start_sector := 10
    root_dir_cluster := ⟨2⟩
    sectorData := fun n =>
      if n = 1 then [3, 0, 0, 0, 0xF8, 0xFF, 0xFF, 0x0F]
      else if n = 10 then [1, 2, 3, 4, 5, 6, 7, 8]
      else if n = 11 then [9, 10, 11, 12, 13, 14, 15, 16]
      else List.replicate 8 0 }

/-- A 1-byte file on `vC3` whose chain (`2 → 3 → Eoc`) holds more data than
`file_size` claims — the file-size/chain-length mismatch the source's
clamping is said to defend against. -/
def fC3 : File :=
  { long_name := none
    short_name := []
    metadata := emptyMetadata
    file_size := 1
    absolute_offset := 0
    start_cluster := 2
    curr_cluster := 2 }

/-- The loop state `File::read` reaches on `fC3` after its first iteration
(offset clamped to `file_size`, current cluster unchanged): from here every
iteration reproduces itself. -/
def fC3stuck : File := { fC3 with absolute_offset := 1 }

/-- Small well-formed mount for witnesses: 4-byte sectors, one sector per
cluster, FAT at sector 0 (cluster `c`'s entry is sector `c`), data region at
sector 10.  Chain `[2, 3]`, cluster 2's data `[10, 11, 12, 13]`, cluster 3's
data `[14, 15, 16, 17]`. -/
def vW : VFat :=
  { bytes_per_sector := 4
    sectors_per_cluster := 1
    sectors_per_fat := 1
    fat_start_sector := 0
    data_start_sector := 10
    root_dir_cluster := ⟨2⟩
    sectorData := fun n =>
      if n = 2 then [3, 0, 0, 0]
      else if n = 3 then [0xF8, 0xFF, 0xFF, 0x0F]
      else if n = 10 then [10, 11, 12, 13]
      else if n = 11 then [14, 15, 16, 17]
      else [0, 0, 0, 0] }

/-- A 7-byte file on `vW` with chain `[2, 3]`, positioned at the start. -/
def fW : File :=
  { long_name := none
    short_name := []
    metadata := emptyMetadata
    file_size := 7
    absolute_offset := 0
    start_cluster := 2
    curr_cluster := 2 }

/-- Cached device with an empty cache over a 2-byte-sector block device, for
evaluating `CachedDevice::get` on a miss. -/
def dC7 : CachedDevice :=
  { device_sector_size := 2
    deviceRead := fun n => [n % 256, 7]
    cache := []
    partition := { start := 4, sector_size := 4 } }

/-- Sector-0 image for the mount witness: valid signature, all boot
indicators `0x00`, slot 0 of type `0x07`, slot 1 the first FAT32 slot
(type `0x0B`). -/
def bufC8 : List Nat :=
  List.replicate 446 0 ++
  ([0x00, 0, 0, 0, 0x07, 0, 0, 0, 64, 0, 0, 0, 8, 0, 0, 0] ++
   [0x00, 0, 0, 0, 0x0B, 0, 0, 0, 128, 0, 0, 0, 16, 0, 0, 0] ++
   [0x80, 0, 0, 0, 0x00, 0, 0, 0, 0, 0, 0, 0, 0, 0, 0, 0] ++
   [0x00, 0, 0, 0, 0x00, 0, 0, 0, 0, 0, 0, 0, 0, 0, 0, 0]) ++
  [0x55, 0xAA]

/-- Two little-endian bytes of a 16-bit value (builder for test records). -/
def u16bytes (u : List Nat) : List Nat :=
  u.flatMap (fun x => [x % 256, x / 256 % 256])

/-- A 32-byte LFN record from a sequence number, 13 UCS-2 units and a
checksum byte (attribute byte `0x0F`, type byte 0, first-cluster 0). -/
def lfnRecordOf (seq : Nat) (u : List Nat) (checksum : Nat) : List Nat :=
  [seq] ++ u16bytes (u.take 5) ++ [0x0F, 0x00, checksum] ++
    u16bytes ((u.drop 5).take 6) ++ [0, 0] ++ u16bytes ((u.drop 11).take 2)

/-- A 32-byte regular record from 8 name bytes, 3 extension bytes, the
attribute byte, first cluster and file size (timestamps zero). -/
def regRecordOf (nameB extB : List Nat) (attr firstCluster size : Nat) : List Nat :=
  nameB.take 8 ++ extB.take 3 ++ [attr] ++ [0, 0] ++ [0, 0] ++ [0, 0] ++ [0, 0] ++
    [firstCluster / 65536 % 256, firstCluster / 16777216 % 256] ++ [0, 0] ++ [0, 0] ++
    [firstCluster % 256, firstCluster / 256 % 256] ++
    [size % 256, size / 256 % 256, size / 65536 % 256, size / 16777216 % 256]

/-- UCS-2 units of `"ilename.txt"` followed by a NUL terminator and `0xFFFF`
padding: the position-2 fragment of `"a_very_long_filename.txt"`. -/
def unitsHi : List Nat :=
  [105, 108, 101, 110, 97, 109, 101, 46, 116, 120, 116, 0, 0xFFFF]

/-- UCS-2 units of `"a_very_long_f"`: the position-1 fragment. -/
def unitsLo : List Nat :=
  [97, 95, 118, 101, 114, 121, 95, 108, 111, 110, 103, 95, 102]

/-- The reconstructed long name `"a_very_long_filename.txt"`. -/
def ln24 : List Nat :=
  [97, 95, 118, 101, 114, 121, 95, 108, 111, 110, 103, 95, 102,
   105, 108, 101, 110, 97, 109, 101, 46, 116, 120, 116]

/-- The all-uppercase lookup `"A_VERY_LONG_FILENAME.TXT"`. -/
def lookup24 : List Nat :=
  [65, 95, 86, 69, 82, 89, 95, 76, 79, 78, 71, 95, 70,
   73, 76, 69, 78, 65, 77, 69, 46, 84, 88, 84]

/-- Position-2 (first-stored) LFN fragment record. -/
def lfnRec2 : List Nat := lfnRecordOf 0x42 unitsHi 0

/-- Position-1 LFN fragment record. -/
def lfnRec1 : List Nat := lfnRecordOf 0x01 unitsLo 0

/-- The regular record following the LFN run, as a FILE (`0x20`, directory
bit clear), short name `"A_VERY~1.TXT"`, first cluster 5, size 10. -/
def regFileRec : List Nat :=
  regRecordOf [65, 95, 86, 69, 82, 89, 126, 49] [84, 88, 84] 0x20 5 10

/-- The same regular record with the directory attribute (`0x10`). -/
def regDirRec : List Nat :=
  regRecordOf [65, 95, 86, 69, 82, 89, 126, 49] [84, 88, 84] 0x10 5 10

/-- C4's counterexample directory: 2 LFN fragments then one regular FILE
record. -/
def cex4Entries : List (List Nat) := [lfnRec2, lfnRec1, regFileRec]

/-- C4's witness directory: same fragments, regular record directory-typed. -/
def dir4Entries : List (List Nat) := [lfnRec2, lfnRec1, regDirRec]

/-- A regular record whose ID byte is `0xE5` (deleted marker), directory
typed, name bytes `0xE5 0x80 0x80` (UTF-8 for U+5000) padded with spaces. -/
def e5DirRec : List Nat :=
  regRecordOf [0xE5, 0x80, 0x80, 0x20, 0x20, 0x20, 0x20, 0x20] [84, 88, 84] 0x10 5 10

/-- C9's counterexample directory: an LFN run whose terminating regular
record carries the deleted marker `0xE5`. -/
def cex9Entries : List (List Nat) := [lfnRec2, lfnRec1, e5DirRec]

/-! ## Theorems -/

/-- The bitwise mask of `FatEntry::status` is reduction mod `2^28`. -/
theorem and_mask28 (x : Nat) : x &&& 0x0FFFFFFF = x % 2 ^ 28 := by
  have h := Nat.and_pow_two_sub_one_eq_mod x 28
  norm_num at h ⊢
  exact h

/-- C1: `FatEntry::status` decodes only the low 28 bits of the raw 32-bit
value: 0 is `Free`, 1 is `Reserved`, `[0x2, 0xFFFFFEF]` is `Data` with the
same cluster number, `[0xFFFFFF0, 0xFFFFFF6]` is `Reserved`, `0xFFFFFF7` is
`Bad`, and `[0xFFFFFF8, 0xFFFFFFF]` is `Eoc` carrying the masked value. -/
theorem fat_entry_status_decodes (n : Nat) (hn : n < 2 ^ 32) : fatStatusSpec n := by
  have hmm : n % 2 ^ 28 % 2 ^ 28 = n % 2 ^ 28 := Nat.mod_mod_of_dvd n dvd_rfl
  have hlt : n % 2 ^ 28 < 2 ^ 28 := Nat.mod_lt _ (by norm_num)
  unfold fatStatusSpec
  simp only [FatEntry.status, and_mask28, hmm]
  refine ⟨trivial, ?_, ?_, ?_, ?_, ?_, ?_⟩
  · intro h; rw [if_pos h]
  · intro h; rw [if_neg (by omega), if_pos h]
  · intro h1 h2
    rw [if_neg (by omega), if_neg (by omega), if_pos (by omega)]
    rfl
  · intro h1 h2
    rcases Nat.lt_or_ge (n % 2 ^ 28) 0x0FFFFFF6 with h3 | h3
    · rw [if_neg (by omega), if_neg (by omega), if_neg (by omega), if_pos (by omega)]
    · rw [if_neg (by omega), if_neg (by omega), if_neg (by omega),
        if_neg (by omega), if_pos (by omega)]
  · intro h
    rw [if_neg (by omega), if_neg (by omega), if_neg (by omega),
      if_neg (by omega), if_neg (by omega), if_pos h]
  · intro h
    rw [if_neg (by omega), if_neg (by omega), if_neg (by omega),
      if_neg (by omega), if_neg (by omega), if_neg (by omega)]

/-- C1 witness: the decode table evaluated at the raw value `0x3FFFFFF9`
(high nibble set, masked value `0x0FFFFFF9`). -/
theorem fat_entry_status_decodes_witness : fatStatusSpec 0x3FFFFFF9 :=
  fat_entry_status_decodes 0x3FFFFFF9 (by norm_num)

/-- The boot-indicator scan succeeds exactly when every slot is valid. -/
theorem bootCheck_ok_iff (ps : List PartitionEntry) (i : Nat) :
    bootCheck ps i = Except.ok () ↔
      ∀ j, j < ps.length → goodBoot (ps.getD j default) := by
  induction ps generalizing i with
  | nil => simp [bootCheck]
  | cons p ps ih =>
    by_cases hp : p.boot_indicator = 0x00 ∨ p.boot_indicator = 0x80
    · rw [bootCheck, if_pos hp]
      rw [ih (i + 1)]
      constructor
      · intro h j hj
        match j with
        | 0 => exact hp
        | j + 1 => exact h j (by simpa using hj)
      · intro h j hj
        exact h (j + 1) (by simpa using hj)
    · rw [bootCheck, if_neg hp]
      simp only [reduceCtorEq, false_iff, not_forall]
      exact ⟨0, by simp, hp⟩

/-- The boot-indicator scan fails with `UnknownBootIndicator (i + j)` exactly
when slot `j` is the first invalid slot. -/
theorem bootCheck_err_iff (ps : List PartitionEntry) (i k : Nat) :
    bootCheck ps i = Except.error (Error.UnknownBootIndicator k) ↔
      ∃ j, j < ps.length ∧ k = i + j ∧ ¬goodBoot (ps.getD j default) ∧
        ∀ l, l < j → goodBoot (ps.getD l default) := by
  induction ps generalizing i with
  | nil => simp [bootCheck]
  | cons p ps ih =>
    by_cases hp : p.boot_indicator = 0x00 ∨ p.boot_indicator = 0x80
    · rw [bootCheck, if_pos hp, ih (i + 1)]
      constructor
      · rintro ⟨j, hj, hk, hbad, hgood⟩
        refine ⟨j + 1, by simpa using hj, by omega, by simpa using hbad, ?_⟩
        intro l hl
        match l with
        | 0 => exact hp
        | l + 1 => exact hgood l (by omega)
      · rintro ⟨j, hj, hk, hbad, hgood⟩
        match j with
        | 0 => exact absurd hp hbad
        | j + 1 =>
          exact ⟨j, by simpa using hj, by omega, by simpa using hbad,
            fun l hl => hgood (l + 1) (by omega)⟩
    · rw [bootCheck, if_neg hp]
      constructor
      · intro h
        refine ⟨0, by simp, ?_, hp, by omega⟩
        have := Except.error.inj h
        have := Error.UnknownBootIndicator.inj this
        omega
      · rintro ⟨j, hj, hk, hbad, hgood⟩
        match j with
        | 0 => simp [show k = i from by omega]
        | j + 1 => exact absurd (hgood 0 (by omega)) (by simpa [goodBoot] using hp)

/-- The boot-indicator scan only ever fails with `UnknownBootIndicator`. -/
theorem bootCheck_err_shape (ps : List PartitionEntry) (i : Nat) (e : Error)
    (h : bootCheck ps i = Except.error e) :
    ∃ k, e = Error.UnknownBootIndicator k := by
  induction ps generalizing i with
  | nil => simp [bootCheck] at h
  | cons p ps ih =>
    by_cases hp : p.boot_indicator = 0x00 ∨ p.boot_indicator = 0x80
    · rw [bootCheck, if_pos hp] at h
      exact ih (i + 1) h
    · rw [bootCheck, if_neg hp] at h
      exact ⟨i, (Except.error.inj h).symm⟩

/-- The FAT32 partition search fails exactly with `NotFound`, exactly when no
slot is a FAT32 variant. -/
theorem findFat32_error_iff (ps : List PartitionEntry) (e : Error) :
    findFat32Partition ps = Except.error e ↔
      e = Error.NotFound ∧ ∀ j, j < ps.length → ¬isFat32Type (ps.getD j default) := by
  induction ps with
  | nil => simp [findFat32Partition, eq_comm]
  | cons p ps ih =>
    by_cases hp : p.partition_type = 0x0B ∨ p.partition_type = 0x0C
    · rw [findFat32Partition, if_pos hp]
      simp only [reduceCtorEq, false_iff, not_and, not_forall]
      intro _
      refine ⟨0, by simp, ?_⟩
      simp only [List.getD_cons_zero]
      exact not_not_intro hp
    · rw [findFat32Partition, if_neg hp, ih]
      constructor
      · rintro ⟨he, h⟩
        refine ⟨he, ?_⟩
        intro j hj
        match j with
        | 0 => simpa [isFat32Type] using hp
        | j + 1 => exact h j (by simpa using hj)
      · rintro ⟨he, h⟩
        exact ⟨he, fun j hj => h (j + 1) (by simpa using hj)⟩

/-- The FAT32 partition search returns exactly the first FAT32 slot. -/
theorem findFat32_ok_iff (ps : List PartitionEntry) (p : PartitionEntry) :
    findFat32Partition ps = Except.ok p ↔
      ∃ i, i < ps.length ∧ isFat32Type (ps.getD i default) ∧
        p = ps.getD i default ∧
        ∀ j, j < i → ¬isFat32Type (ps.getD j default) := by
  induction ps with
  | nil => simp [findFat32Partition]
  | cons q ps ih =>
    by_cases hq : q.partition_type = 0x0B ∨ q.partition_type = 0x0C
    · rw [findFat32Partition, if_pos hq]
      constructor
      · intro h
        exact ⟨0, by simp, by simpa [isFat32Type] using hq,
          by simpa using (Except.ok.inj h).symm, by omega⟩
      · rintro ⟨i, hi, hfat, hp, hfirst⟩
        match i with
        | 0 => simp_all
        | i + 1 => exact absurd (by simpa [isFat32Type] using hq) (hfirst 0 (by omega))
    · rw [findFat32Partition, if_neg hq, ih]
      constructor
      · rintro ⟨i, hi, hfat, hp, hfirst⟩
        refine ⟨i + 1, by simpa using hi, by simpa using hfat, by simpa using hp, ?_⟩
        intro j hj
        match j with
        | 0 => simpa [isFat32Type] using hq
        | j + 1 => exact fun hc => hfirst j (by omega) (by simpa using hc)
      · rintro ⟨i, hi, hfat, hp, hfirst⟩
        match i with
        | 0 => exact absurd (by simpa [isFat32Type] using hfat) hq
        | i + 1 =>
          exact ⟨i, by simpa using hi, by simpa using hfat, by simpa using hp,
            fun j hj => fun hc => hfirst (j + 1) (by omega) (by simpa using hc)⟩

/-- The MBR signature test is the trailing-bytes test of the claim. -/
theorem sig_cond (buf : List Nat) :
    (parseMBR buf).signature = [0x55, 0xAA] ↔ sigOk buf := by
  simp [parseMBR, sigOk]

/-- C8: mounting fails with `BadSignature` iff sector 0 does not end with
`0x55 0xAA`; given a valid signature it fails with `UnknownBootIndicator i`
for the first slot `i` whose boot indicator is neither `0x00` nor `0x80`;
given valid boot indicators it fails with `NotFound` exactly when no slot
has partition type `0x0B`/`0x0C`, and otherwise selects the first such
slot. -/
theorem mount_locate_behaviour (buf : List Nat) (hlen : buf.length = 512) :
    mbrLocateSpec buf := by
  have hps : (parseMBR buf).partitions.length = 4 := by simp [parseMBR]
  unfold mbrLocateSpec
  by_cases hsig : (parseMBR buf).signature = [0x55, 0xAA]
  · have hsig' : sigOk buf := (sig_cond buf).mp hsig
    cases hbc : bootCheck (parseMBR buf).partitions 0 with
    | ok u =>
      cases u
      have hml : mountLocate buf = findFat32Partition (parseMBR buf).partitions := by
        simp [mountLocate, MasterBootRecord.fromBytes, hsig, hbc]
      have hall : ∀ j, j < 4 → goodBoot ((parseMBR buf).partitions.getD j default) := by
        have h := (bootCheck_ok_iff _ 0).mp hbc
        rwa [hps] at h
      refine ⟨?_, ?_, ?_, ?_⟩
      · rw [hml]
        constructor
        · intro h
          rcases (findFat32_error_iff _ _).mp h with ⟨he, _⟩
          exact Error.noConfusion he
        · intro h; exact absurd hsig' h
      · intro i
        rw [hml]
        constructor
        · intro h
          rcases (findFat32_error_iff _ _).mp h with ⟨he, _⟩
          exact Error.noConfusion he
        · rintro ⟨_, hi, hbad, _⟩
          exact absurd (hall i hi) hbad
      · rw [hml, findFat32_error_iff, hps]
        constructor
        · rintro ⟨_, h⟩; exact ⟨hsig', hall, h⟩
        · rintro ⟨_, _, h⟩; exact ⟨rfl, h⟩
      · intro p
        rw [hml, findFat32_ok_iff, hps]
        constructor
        · intro h; exact ⟨hsig', hall, h⟩
        · rintro ⟨_, _, h⟩; exact h
    | error e =>
      rcases bootCheck_err_shape _ _ _ hbc with ⟨k, rfl⟩
      have hml : mountLocate buf = Except.error (Error.UnknownBootIndicator k) := by
        simp [mountLocate, MasterBootRecord.fromBytes, hsig, hbc]
      have hk := (bootCheck_err_iff _ 0 k).mp hbc
      rw [hps] at hk
      rcases hk with ⟨j, hj4, hkj, hbad, hfirst⟩
      have hkj' : k = j := by omega
      subst hkj'
      refine ⟨?_, ?_, ?_, ?_⟩
      · rw [hml]
        constructor
        · intro h; exact Error.noConfusion (Except.error.inj h)
        · intro h; exact absurd hsig' h
      · intro i
        rw [hml]
        constructor
        · intro h
          have hji : k = i := Error.UnknownBootIndicator.inj (Except.error.inj h)
          subst hji
          exact ⟨hsig', hj4, hbad, hfirst⟩
        · rintro ⟨_, hi4, hbadi, hfirsti⟩
          have hij : i = k := by
            rcases Nat.lt_trichotomy i k with h1 | h1 | h1
            · exact absurd (hfirst i h1) hbadi
            · exact h1
            · exact absurd (hfirsti k h1) hbad
          subst hij
          rfl
      · rw [hml]
        constructor
        · intro h; exact Error.noConfusion (Except.error.inj h)
        · rintro ⟨_, hgood, _⟩; exact absurd (hgood k hj4) hbad
      · intro p
        rw [hml]
        constructor
        · intro h; exact Except.noConfusion h
        · rintro ⟨_, hgood, _⟩; exact absurd (hgood k hj4) hbad
  · have hsig' : ¬sigOk buf := fun h => hsig ((sig_cond buf).mpr h)
    have hml : mountLocate buf = Except.error Error.BadSignature := by
      simp [mountLocate, MasterBootRecord.fromBytes, hsig]
    refine ⟨?_, ?_, ?_, ?_⟩
    · rw [hml]; simp [hsig']
    · intro i
      rw [hml]
      constructor
      · intro h; exact Error.noConfusion (Except.error.inj h)
      · rintro ⟨h, _⟩; exact absurd h hsig'
    · rw [hml]
      constructor
      · intro h; exact Error.noConfusion (Except.error.inj h)
      · rintro ⟨h, _⟩; exact absurd h hsig'
    · intro p
      rw [hml]
      constructor
      · intro h; exact Except.noConfusion h
      · rintro ⟨h, _⟩; exact absurd h hsig'

/-- C8 witness: on `bufC8` (valid signature, all boot indicators valid, slot
0 of type `0x07`, slot 1 of type `0x0B`) the locator's behaviour table
holds. -/
theorem mount_locate_behaviour_witness : mbrLocateSpec bufC8 :=
  mount_locate_behaviour bufC8 (by set_option maxRecDepth 8192 in simp [bufC8])

/-- Invariant of the `File::read` loop: starting at or before `file_size`,
a successful run keeps `file_size` fixed, never passes it, and delivers
exactly as many bytes as it advances the offset. -/
theorem readLoop_ok_invariant (v : VFat) :
    ∀ fuel (f : File) (bufLen : Nat) (acc out : List Nat) (f' : File),
      f.absolute_offset ≤ f.file_size →
      readLoop v fuel f bufLen acc = some (Except.ok out, f') →
      f'.file_size = f.file_size ∧ f'.absolute_offset ≤ f.file_size ∧
        out.length + f.absolute_offset = acc.length + f'.absolute_offset := by
  intro fuel
  induction fuel with
  | zero => intro f bufLen acc out f' _ h; simp [readLoop] at h
  | succ fuel ih =>
    intro f bufLen acc out f' hao h
    rw [readLoop] at h
    by_cases hb : bufLen = 0
    · rw [if_pos hb] at h
      simp only [Option.some.injEq, Prod.mk.injEq, Except.ok.injEq] at h
      obtain ⟨rfl, rfl⟩ := h
      exact ⟨rfl, hao, by omega⟩
    · rw [if_neg hb] at h
      simp only at h
      cases hrc : v.read_cluster f.curr_cluster (f.absolute_offset % v.cluster_size)
          bufLen with
      | error e => rw [hrc] at h; simp at h
      | ok bytes0 =>
        rw [hrc] at h
        simp only at h
        set n := if f.absolute_offset + bytes0.length > f.file_size
                 then f.file_size - f.absolute_offset else bytes0.length with hn
        have hnlen : n ≤ bytes0.length := by
          rw [hn]; split <;> omega
        have htake : (bytes0.take n).length = n := by
          simp [List.length_take]; omega
        have hao1 : f.absolute_offset + n ≤ f.file_size := by
          rw [hn]; split <;> omega
        cases hst : (v.fat_entry f.curr_cluster).status with
        | Eoc e =>
          rw [hst] at h
          by_cases hc : bufLen - n > 0 ∧ f.absolute_offset + n < f.file_size
          · rw [if_pos hc] at h; simp at h
          · rw [if_neg hc] at h
            simp only [Option.some.injEq, Prod.mk.injEq, Except.ok.injEq] at h
            obtain ⟨rfl, rfl⟩ := h
            refine ⟨rfl, hao1, ?_⟩
            simp [htake]
            omega
        | Data next =>
          rw [hst] at h
          try dsimp only at h
          split at h <;>
          · rcases ih _ _ _ _ _ (by dsimp only; omega) h with ⟨h1, h2, h3⟩
            try dsimp only at h1 h2 h3
            refine ⟨h1, h2, ?_⟩
            simp only [List.length_append, htake] at h3
            omega
        | Free => rw [hst] at h; simp at h
        | Reserved => rw [hst] at h; simp at h
        | Bad => rw [hst] at h; simp at h

/-- C2: reading at `absolute_offset = file_size` returns `Ok` with zero
bytes and an unchanged handle, and any successful read started at or before
`file_size` delivers `n` bytes with `absolute_offset + n ≤ file_size`. -/
theorem read_eof_and_never_past_size (v : VFat) (f : File) (bufLen fuel : Nat) :
    (f.absolute_offset = f.file_size →
      File.read v f bufLen fuel = some (Except.ok [], f)) ∧
    (∀ out f', f.absolute_offset ≤ f.file_size →
      File.read v f bufLen fuel = some (Except.ok out, f') →
      f.absolute_offset + out.length ≤ f.file_size) := by
  constructor
  · intro h; simp [File.read, h]
  · intro out f' hao h
    rw [File.read] at h
    by_cases he : f.absolute_offset = f.file_size
    · rw [if_pos he] at h
      simp only [Option.some.injEq, Prod.mk.injEq, Except.ok.injEq] at h
      obtain ⟨rfl, rfl⟩ := h
      simpa using hao
    · rw [if_neg he] at h
      rcases readLoop_ok_invariant v fuel f bufLen [] out f' hao h with ⟨_, h2, h3⟩
      simp at h3
      omega

/-- On `vC3`/`fC3stuck` one iteration of the `File::read` loop reproduces its
own state: the cluster read returns 7 bytes, the clamp cuts the count to 0,
the offset does not cross a cluster boundary, and the FAT entry of the
current cluster is `Data`, so the loop continues unchanged. -/
theorem readLoop_stuck_step (fuel : Nat) (acc : List Nat) :
    readLoop vC3 (fuel + 1) fC3stuck 7 acc =
      readLoop vC3 fuel fC3stuck 7 (acc ++ []) := rfl

/-- The `File::read` loop never terminates from the stuck state, with any
amount of fuel. -/
theorem readLoop_stuck (fuel : Nat) :
    ∀ acc, readLoop vC3 fuel fC3stuck 7 acc = none := by
  induction fuel with
  | zero => intro acc; rfl
  | succ n ih => intro acc; rw [readLoop_stuck_step]; exact ih (acc ++ [])

/-- C3 (code bug): on the mount `vC3` the file `fC3` has the finite, acyclic
FAT chain `2 → 3 → Eoc`, yet a single `File::read` with a 8-byte caller
buffer runs forever — after the first iteration delivers the 1 byte of
`file_size`, every further iteration reads 7 bytes, clamps the count to 0,
never crosses a cluster boundary, and sees `Data`, looping with unchanged
state.  In the fuel embedding: no amount of fuel finishes the call. -/
theorem read_never_terminates (fuel : Nat) : File.read vC3 fC3 8 fuel = none := by
  cases fuel with
  | zero => rfl
  | succ n =>
    have hstep : File.read vC3 fC3 8 (n + 1) = readLoop vC3 n fC3stuck 7 [1] := rfl
    rw [hstep]
    exact readLoop_stuck n [1]

/-- The chain of `fC3` really is finite and acyclic: cluster 2 maps to
`Data 3` and cluster 3 to `Eoc`. -/
theorem fC3_chain_finite_acyclic :
    (vC3.fat_entry 2).status = Status.Data ⟨3⟩ ∧
      (vC3.fat_entry 3).status = Status.Eoc 0x0FFFFFF8 := by
  constructor <;> rfl

/-- C10: when `File::seek` returns an error — `InvalidInput` from candidate
validation, or `UnexpectedEof`/`InvalidData` from the chain walk — the
handle's observable state is unchanged: `absolute_offset` and `curr_cluster`
hold exactly their previous values (the source assigns them only after the
walk succeeds). -/
theorem seek_error_preserves_state (v : VFat) (f : File) (pos : SeekFrom)
    (fuel : Nat) (e : Error) (f' : File)
    (h : File.seek v f pos fuel = some (Except.error e, f')) :
    f'.absolute_offset = f.absolute_offset ∧ f'.curr_cluster = f.curr_cluster := by
  unfold File.seek seekCandidate at h
  cases pos <;> (try dsimp only at h) <;> split at h <;> (try split at h) <;>
    simp at h <;> (obtain ⟨_, rfl⟩ := h; exact ⟨rfl, rfl⟩)

/-- C10 witness: seeking `fW` (size 7) to `Start 100` fails with
`InvalidInput` and leaves the handle's offset and cluster as they were. -/
theorem seek_error_preserves_state_witness :
    fW.absolute_offset = fW.absolute_offset ∧ fW.curr_cluster = fW.curr_cluster :=
  seek_error_preserves_state vW fW (SeekFrom.Start 100) 5 Error.InvalidInput fW rfl

/-- The chain walk of `File::seek`, started on the chain of a consistent
file, reaches the cluster containing the target offset `k ≤ file_size`
(for `k = file_size` on a cluster-aligned file, the last cluster). -/
theorem seekWalk_reaches (v : VFat) (L : List Nat) (fs : Nat)
    (hcs : 1 ≤ v.cluster_size) (hch : ChainExact v L fs) (k : Nat) (hk : k ≤ fs) :
    ∀ fuel i, i ≤ min (k / v.cluster_size) (L.length - 1) →
      L.length + 1 - i ≤ fuel →
      seekWalk v fs k fuel (L.getD i 0) (i * v.cluster_size) =
        some (Except.ok (L.getD (min (k / v.cluster_size) (L.length - 1)) 0)) := by
  obtain ⟨hm, hdata, heoc, hlo, hhi⟩ := hch
  intro fuel
  induction fuel with
  | zero => intro i hi hfuel; omega
  | succ fl ih =>
    intro i hi hfuel
    rw [seekWalk]
    have hsm : (L.length - 1 + 1) = L.length := by omega
    have hB : L.length * v.cluster_size =
        (L.length - 1) * v.cluster_size + v.cluster_size := by
      conv_lhs => rw [← hsm]
      rw [Nat.succ_mul]
    by_cases hcond : i * v.cluster_size + v.cluster_size ≤ k
    · rw [if_pos hcond]
      have hdiv : i + 1 ≤ k / v.cluster_size := by
        rw [Nat.le_div_iff_mul_le (by omega)]
        rw [Nat.succ_mul]
        omega
      by_cases hit : i < L.length - 1
      · rw [hdata i hit]
        dsimp only
        have harith : i * v.cluster_size + v.cluster_size =
            (i + 1) * v.cluster_size := (Nat.succ_mul i _).symm
        rw [harith]
        exact ih (i + 1) (by omega) (by omega)
      · have him : i = L.length - 1 := by omega
        have hkm : i * v.cluster_size + v.cluster_size = k ∧ k = fs := by
          rw [him] at hcond ⊢
          omega
        have hEoc : ∃ e, (v.fat_entry (L.getD i 0)).status = Status.Eoc e := by
          rw [him]
          cases hst : (v.fat_entry (L.getD (L.length - 1) 0)).status <;>
            rw [hst] at heoc <;> simp [Status.isEoc] at heoc <;> exact ⟨_, rfl⟩
        obtain ⟨e, hst⟩ := hEoc
        rw [hst, if_pos ⟨hkm.1, hkm.2⟩]
        have hmin : min (k / v.cluster_size) (L.length - 1) = i := by omega
        rw [hmin]
    · rw [if_neg hcond]
      have hki : k / v.cluster_size ≤ i := by
        by_contra hlt
        push_neg at hlt
        have h2 : (i + 1) * v.cluster_size ≤ k :=
          (Nat.le_div_iff_mul_le (by omega)).mp hlt
        rw [Nat.succ_mul] at h2
        omega
      have hti : i = min (k / v.cluster_size) (L.length - 1) := by omega
      rw [← hti]

/-- A candidate that resolves to `InvalidInput` makes `File::seek` fail with
the handle untouched. -/
theorem seek_err_of_cand (v : VFat) (f : File) (pos : SeekFrom) (fuel : Nat)
    (hcand : seekCandidate f pos = Except.error Error.InvalidInput) :
    File.seek v f pos fuel = some (Except.error Error.InvalidInput, f) := by
  unfold File.seek
  rw [hcand]

/-- A candidate that resolves to exactly `file_size` makes `File::seek`
succeed on a consistent chain. -/
theorem seek_ok_of_cand (v : VFat) (L : List Nat) (f : File) (pos : SeekFrom)
    (fuel : Nat) (hcs : 1 ≤ v.cluster_size) (hch : ChainExact v L f.file_size)
    (hst : f.start_cluster = L.getD 0 0) (hfuel : L.length + 1 ≤ fuel)
    (hcand : seekCandidate f pos = Except.ok f.file_size) :
    seekToEndOk v f pos fuel := by
  have hwalk := seekWalk_reaches v L f.file_size hcs hch f.file_size le_rfl fuel 0
    (Nat.zero_le _) (by omega)
  rw [Nat.zero_mul] at hwalk
  refine ⟨L.getD (min (f.file_size / v.cluster_size) (L.length - 1)) 0, ?_⟩
  unfold File.seek
  rw [hcand]
  dsimp only
  rw [hst, hwalk]

/-- C5: every seek mode resolved to a candidate of exactly `file_size`
succeeds and returns the new offset; a candidate greater than `file_size`,
or a negative candidate via the `Current`/`End` modes, fails with
`InvalidInput`. -/
theorem seek_eof_and_rejections (v : VFat) (L : List Nat) (f : File) (fuel : Nat)
    (hcs : 1 ≤ v.cluster_size) (hch : ChainExact v L f.file_size)
    (hst : f.start_cluster = L.getD 0 0) (hfuel : L.length + 1 ≤ fuel) :
    seekSpec v f fuel := by
  refine ⟨?_, ?_, ?_, ?_, ?_, ?_, ?_, ?_⟩
  · refine seek_ok_of_cand v L f _ fuel hcs hch hst hfuel ?_
    unfold seekCandidate
    dsimp only
    rw [if_neg (by omega)]
  · refine seek_ok_of_cand v L f _ fuel hcs hch hst hfuel ?_
    unfold seekCandidate
    dsimp only
    rw [if_neg (by omega)]
    congr 1
    all_goals omega
  · refine seek_ok_of_cand v L f _ fuel hcs hch hst hfuel ?_
    unfold seekCandidate
    dsimp only
    rw [if_neg (by omega)]
    congr 1
    all_goals omega
  · intro n hn
    refine seek_err_of_cand v f _ fuel ?_
    unfold seekCandidate
    dsimp only
    rw [if_pos (by omega)]
  · intro e he
    refine seek_err_of_cand v f _ fuel ?_
    unfold seekCandidate
    dsimp only
    rw [if_pos (by omega)]
  · intro e he
    refine seek_err_of_cand v f _ fuel ?_
    unfold seekCandidate
    dsimp only
    rw [if_pos (by omega)]
  · intro c hc
    refine seek_err_of_cand v f _ fuel ?_
    unfold seekCandidate
    dsimp only
    rw [if_pos (by omega)]
  · intro c hc
    refine seek_err_of_cand v f _ fuel ?_
    unfold seekCandidate
    dsimp only
    rw [if_pos (by omega)]

/-- C5 witness: the seek behaviour table on the concrete 7-byte file `fW`
over `vW` (chain `[2, 3]`, cluster size 4). -/
theorem seek_eof_and_rejections_witness : seekSpec vW fW 3 :=
  seek_eof_and_rejections vW [2, 3] fW 3 (by decide)
    (by refine ⟨by decide, ?_, by decide, by decide, by decide⟩
        intro i hi
        simp at hi
        obtain rfl : i = 0 := by omega
        decide)
    (by decide) (by decide)

/-- C7 (code bug): `CachedDevice::get` alone, on a cache miss, leaves a cache
entry with `dirty = true` — `get_helper` inserts the freshly filled entry
with `dirty: true` (cache.rs line 116), although `get_mut`'s documentation
says marking dirty is what distinguishes `get_mut` from `get`.  Evaluated on
the concrete device `dC7`: one `get 0` call from an empty cache leaves the
sector-0 entry dirty. -/
theorem get_miss_inserts_dirty_entry :
    cacheLookup (dC7.get 0).2.cache 0 = some { data := [0, 7], dirty := true } ∧
      (dC7.get 0).2.cache = [(0, { data := [0, 7], dirty := true })] :=
  ⟨rfl, rfl⟩

/-- A `0x00` ID byte at the iteration position stops iteration (yields
nothing, not an error), whatever follows. -/
theorem entriesNext_stop (entries : List (List Nat)) (next fuel : Nat)
    (h1 : next < entries.length) (h2 : recId (entries.getD next []) = 0x00) :
    entriesNext (fuel + 1) entries next = Except.ok none := by
  rw [entriesNext, if_pos h1]
  dsimp only
  rw [if_pos h2]

/-- A `0xE5` ID byte at the iteration position is skipped: the call continues
at the next index. -/
theorem entriesNext_skip (entries : List (List Nat)) (next fuel : Nat)
    (h1 : next < entries.length) (h2 : recId (entries.getD next []) = 0xE5) :
    entriesNext (fuel + 1) entries next = entriesNext fuel entries (next + 1) := by
  rw [entriesNext, if_pos h1]
  dsimp only
  rw [if_neg (by omega), if_pos h2]

/-- A directory record list beginning with a `0x00` ID yields zero entries
regardless of trailing bytes. -/
theorem collectEntries_stops_at_zero (entries : List (List Nat))
    (h1 : 0 < entries.length) (h2 : recId (entries.getD 0 []) = 0x00) :
    collectEntries entries = Except.ok [] := by
  rw [collectEntries, collectFrom, entriesNext_stop entries 0 entries.length h1 h2]

/-- C9 (amended): a record with ID `0x00` at the current iteration position
stops iteration (so a directory beginning with one yields zero entries,
regardless of trailing bytes), and a record with ID `0xE5` at the current
iteration position is skipped, iteration continuing at the next index.  (The
original claim's stronger reading fails: a record at or after those markers
can still be consumed as the regular entry terminating a preceding LFN run —
see the counterexample.) -/
theorem dir_iteration_stop_and_skip :
    (∀ (entries : List (List Nat)) (next fuel : Nat), next < entries.length →
      recId (entries.getD next []) = 0x00 →
      entriesNext (fuel + 1) entries next = Except.ok none) ∧
    (∀ entries : List (List Nat), 0 < entries.length →
      recId (entries.getD 0 []) = 0x00 → collectEntries entries = Except.ok []) ∧
    (∀ (entries : List (List Nat)) (next fuel : Nat), next < entries.length →
      recId (entries.getD next []) = 0xE5 →
      entriesNext (fuel + 1) entries next = entriesNext fuel entries (next + 1)) :=
  ⟨entriesNext_stop, collectEntries_stops_at_zero, entriesNext_skip⟩

/-- C9 counterexample: in `cex9Entries` the third record carries the deleted
marker `0xE5`, yet iteration yields an entry built from it (its short name
and metadata come from that record) — the record was consumed as the LFN
run's regular entry, not skipped; without it the same run panics, showing
the yielded entry really is "for" the `0xE5` record. -/
theorem e5_record_consumed_not_skipped :
    recId (cex9Entries.getD 2 []) = 0xE5 ∧
    collectEntries cex9Entries =
      Except.ok [Entry.Dir (some ln24) [0x5000, 0x2E, 0x54, 0x58, 0x54]
        (regMetadata e5DirRec) (regFirstCluster e5DirRec)] ∧
    collectEntries [lfnRec2, lfnRec1] = Except.error () :=
  ⟨rfl, rfl, rfl⟩

/-- `EntryIter::parse_lfn` on a run of exactly two fragments stored
highest-position-first: the name is the concatenation in ascending position
order. -/
theorem parseLfn_two (r2 r1 reg : List Nat) (n1 n2 : List Nat)
    (h2seq : recId r2 = 0x42) (h2attr : (recAttributes r2).lfn = true)
    (h2name : lfnName r2 = some n2)
    (h1seq : recId r1 = 0x01) (h1attr : (recAttributes r1).lfn = true)
    (h1name : lfnName r1 = some n1) :
    parseLfn [r2, r1, reg] 0 = Except.ok (n1 ++ n2, 2) := by
  have hpos2 : lfnPosition r2 = 2 := by unfold lfnPosition; rw [h2seq]; rfl
  have hpos1 : lfnPosition r1 = 1 := by unfold lfnPosition; rw [h1seq]; rfl
  have hlast : lfnLastLogical r2 = true := by unfold lfnLastLogical; rw [h2seq]; rfl
  unfold parseLfn
  simp only [List.getD_cons_zero, hpos2]
  rw [if_pos ⟨h2attr, by rw [hlast], by omega, by simp⟩]
  have hfrags : (([r2, r1, reg].drop 0).take 2).reverse = [r1, r2] := by simp
  rw [hfrags]
  unfold lfnRun
  rw [if_pos ⟨h1attr, by rw [hpos1]⟩, h1name]
  unfold lfnRun
  rw [if_pos ⟨h2attr, by rw [hpos2]⟩, h2name]
  unfold lfnRun
  simp

/-- One `EntryIter::next` step over a 2-fragment LFN run followed by a
directory-typed regular record: yields a `Dir` entry carrying the
reconstructed long name. -/
theorem entriesNext_lfn_dir (r2 r1 reg : List Nat) (n1 n2 sn : List Nat) (fuel : Nat)
    (h2seq : recId r2 = 0x42) (h2attr : (recAttributes r2).lfn = true)
    (h2name : lfnName r2 = some n2)
    (h1seq : recId r1 = 0x01) (h1attr : (recAttributes r1).lfn = true)
    (h1name : lfnName r1 = some n1)
    (hrdir : (recAttributes reg).directory = true)
    (hrname : regularName reg = some sn) :
    entriesNext (fuel + 1) [r2, r1, reg] 0 =
      Except.ok (some (Entry.Dir (some (n1 ++ n2)) sn (regMetadata reg)
        (regFirstCluster reg), 3)) := by
  rw [entriesNext, if_pos (by simp)]
  simp only [List.getD_cons_zero]
  rw [if_neg (by omega), if_neg (by omega), if_pos (by rw [h2attr]),
    parseLfn_two r2 r1 reg n1 n2 h2seq h2attr h2name h1seq h1attr h1name]
  dsimp only
  rw [if_pos (by simp)]
  simp only [List.getD_cons_succ, List.getD_cons_zero]
  rw [if_pos (by rw [hrdir]), hrname]

/-- C4 (amended): a directory holding one entry whose long name is spread
over 2 LFN fragments (highest position first) followed by one regular
record carrying the DIRECTORY attribute yields exactly one `Entry`, a `Dir`
whose name is the fragments concatenated in ascending position order, and
`find` locates it by a case-insensitive comparison against that long name.
(For a file-typed regular record this snapshot of dir.rs yields the
field-less stub `Entry::File(File {})`, losing the name, and `Entry::name` —
`todo!()` for files — makes `find` panic; see the counterexample.) -/
theorem lfn_iteration_and_find_dir (r2 r1 reg : List Nat) (n1 n2 sn lookup : List Nat)
    (h2seq : recId r2 = 0x42) (h2attr : (recAttributes r2).lfn = true)
    (h2name : lfnName r2 = some n2)
    (h1seq : recId r1 = 0x01) (h1attr : (recAttributes r1).lfn = true)
    (h1name : lfnName r1 = some n1)
    (hrdir : (recAttributes reg).directory = true)
    (hrname : regularName reg = some sn)
    (hlook : eqIgnoreAsciiCase (n1 ++ n2) lookup = true) :
    collectEntries [r2, r1, reg] =
      Except.ok [Entry.Dir (some (n1 ++ n2)) sn (regMetadata reg)
        (regFirstCluster reg)] ∧
    dirFind [r2, r1, reg] lookup =
      Except.ok (Except.ok (Entry.Dir (some (n1 ++ n2)) sn (regMetadata reg)
        (regFirstCluster reg))) := by
  have hstep := entriesNext_lfn_dir r2 r1 reg n1 n2 sn
    ([r2, r1, reg] : List (List Nat)).length
    h2seq h2attr h2name h1seq h1attr h1name hrdir hrname
  constructor
  · rw [collectEntries, collectFrom, hstep]
    dsimp only
    rw [show ([r2, r1, reg] : List (List Nat)).length = 2 + 1 from rfl, collectFrom,
      entriesNext, if_neg (by simp)]
  · rw [dirFind, findLoop, hstep]
    dsimp only [Entry.name, Option.getD]
    rw [if_pos hlook]

/-- C4 counterexample: `cex4Entries` is exactly the claimed shape — 2 LFN
fragments then one regular 8.3 entry — but the regular entry is a FILE
(directory bit clear), so iteration yields the field-less `Entry::File`
stub: the reconstructed long name is dropped, `Entry::name` on it is the
`todo!()` panic (`none`), and `find` with the case-insensitive lookup
panics instead of locating the entry. -/
theorem lfn_file_entry_loses_name :
    collectEntries cex4Entries = Except.ok [Entry.File] ∧
    Entry.name Entry.File = none ∧
    dirFind cex4Entries lookup24 = Except.error () :=
  ⟨rfl, rfl, rfl⟩

/-- C4 witness: the amended statement evaluated on the concrete directory
`dir4Entries` (long name `"a_very_long_filename.txt"` over 2 fragments, the
regular record directory-typed), with the all-uppercase lookup. -/
theorem lfn_iteration_and_find_dir_witness :
    collectEntries dir4Entries =
      Except.ok [Entry.Dir (some ln24) [65, 95, 86, 69, 82, 89, 126, 49, 46, 84, 88, 84]
        (regMetadata regDirRec) (regFirstCluster regDirRec)] ∧
    dirFind dir4Entries lookup24 =
      Except.ok (Except.ok (Entry.Dir (some ln24)
        [65, 95, 86, 69, 82, 89, 126, 49, 46, 84, 88, 84]
        (regMetadata regDirRec) (regFirstCluster regDirRec))) :=
  lfn_iteration_and_find_dir lfnRec2 lfnRec1 regDirRec
    [97, 95, 118, 101, 114, 121, 95, 108, 111, 110, 103, 95, 102]
    [105, 108, 101, 110, 97, 109, 101, 46, 116, 120, 116]
    [65, 95, 86, 69, 82, 89, 126, 49, 46, 84, 88, 84] lookup24
    rfl rfl rfl rfl rfl rfl rfl rfl (by decide)

/-- Past the first sector, the copy loop of `read_cluster` takes a prefix of
the remaining sectors' bytes. -/
theorem readSecLoop_tail (v : VFat) (base so ois : Nat) :
    ∀ cnt i bufLen, so < i →
      readSecLoop v base so ois i cnt bufLen =
        (sectorsFrom v base i cnt).take bufLen := by
  intro cnt
  induction cnt with
  | zero => intro i bufLen _; simp [readSecLoop, sectorsFrom]
  | succ cnt ih =>
    intro i bufLen hi
    rw [readSecLoop, sectorsFrom]
    try dsimp only
    rw [if_neg (by omega : ¬i = so), List.take_append_eq_append_take]
    have hmin := List.length_take bufLen (v.sectorData (base + i))
    by_cases hfull : bufLen - ((v.sectorData (base + i)).take bufLen).length = 0
    · rw [if_pos hfull]
      have h0 : bufLen - (v.sectorData (base + i)).length = 0 := by omega
      rw [h0]
      simp
    · rw [if_neg hfull]
      have hlt : (v.sectorData (base + i)).length < bufLen := by omega
      have htake : (v.sectorData (base + i)).take bufLen = v.sectorData (base + i) :=
        List.take_of_length_le (by omega)
      rw [htake, ih (i + 1) (bufLen - (v.sectorData (base + i)).length) (by omega)]

/-- The full copy loop of `read_cluster`: a prefix of the first touched
sector's bytes from `ois` plus the following sectors' bytes. -/
theorem readSecLoop_head (v : VFat) (base so ois cnt bufLen : Nat) :
    readSecLoop v base so ois so (cnt + 1) bufLen =
      ((v.sectorData (base + so)).drop ois ++
        sectorsFrom v base (so + 1) cnt).take bufLen := by
  rw [readSecLoop]
  try dsimp only
  rw [if_pos rfl, List.take_append_eq_append_take]
  have hmin := List.length_take bufLen ((v.sectorData (base + so)).drop ois)
  by_cases hfull : bufLen - (((v.sectorData (base + so)).drop ois).take bufLen).length = 0
  · rw [if_pos hfull]
    have h0 : bufLen - ((v.sectorData (base + so)).drop ois).length = 0 := by omega
    rw [h0]
    simp
  · rw [if_neg hfull]
    have htake : ((v.sectorData (base + so)).drop ois).take bufLen =
        (v.sectorData (base + so)).drop ois :=
      List.take_of_length_le (by omega)
    rw [htake,
      readSecLoop_tail v base so ois cnt (so + 1)
        (bufLen - ((v.sectorData (base + so)).drop ois).length) (by omega)]

/-- Length of a run of whole sectors. -/
theorem length_sectorsFrom (v : VFat) (base : Nat) :
    ∀ cnt i, (∀ t, t < cnt →
        (v.sectorData (base + (i + t))).length = v.bytes_per_sector) →
      (sectorsFrom v base i cnt).length = cnt * v.bytes_per_sector := by
  intro cnt
  induction cnt with
  | zero => intro i _; simp [sectorsFrom]
  | succ cnt ih =>
    intro i h
    rw [sectorsFrom, List.length_append, ih (i + 1) (fun t ht => by
      have ht2 := h (t + 1) (by omega)
      rw [show i + 1 + t = i + (t + 1) by omega]
      exact ht2)]
    have h0 := h 0 (by omega)
    rw [show i + 0 = i by omega] at h0
    rw [h0, Nat.succ_mul]
    omega

/-- Dropping `j` whole sectors from a run of whole sectors. -/
theorem sectorsFrom_drop (v : VFat) (base : Nat) :
    ∀ j cnt i, j ≤ cnt →
      (∀ t, t < j → (v.sectorData (base + (i + t))).length = v.bytes_per_sector) →
      (sectorsFrom v base i cnt).drop (j * v.bytes_per_sector) =
        sectorsFrom v base (i + j) (cnt - j) := by
  intro j
  induction j with
  | zero => intro cnt i _ _; simp
  | succ j ih =>
    intro cnt i hj h
    obtain ⟨cnt', rfl⟩ : ∃ cnt', cnt = cnt' + 1 := ⟨cnt - 1, by omega⟩
    rw [sectorsFrom, List.drop_append_eq_append_drop]
    have h0 := h 0 (by omega)
    rw [show i + 0 = i by omega] at h0
    have hge : (v.sectorData (base + i)).length ≤ (j + 1) * v.bytes_per_sector := by
      rw [Nat.succ_mul]
      omega
    rw [List.drop_eq_nil_of_le hge, List.nil_append, h0, Nat.succ_mul,
      show j * v.bytes_per_sector + v.bytes_per_sector -
        v.bytes_per_sector = j * v.bytes_per_sector by omega]
    rw [ih cnt' (i + 1) (by omega) (fun t ht => by
      have ht2 := h (t + 1) (by omega)
      rw [show i + 1 + t = i + (t + 1) by omega]
      exact ht2)]
    rw [show i + 1 + j = i + (j + 1) by omega,
      show cnt' - j = cnt' + 1 - (j + 1) by omega]

/-- Length of a whole cluster's bytes. -/
theorem length_clusterBytes (v : VFat) (c : Nat)
    (hsec : ∀ i, i < v.sectors_per_cluster →
      (v.sectorData (v.cluster_start_sector c + i)).length = v.bytes_per_sector) :
    (v.clusterBytes c).length = v.cluster_size := by
  rw [VFat.clusterBytes, VFat.cluster_size,
    length_sectorsFrom v _ v.sectors_per_cluster 0 (fun t ht => by
      rw [show (0 : Nat) + t = t by omega]
      exact hsec t ht)]

/-- `VFat::read_cluster` on a readable (`Data`/`Eoc`) cluster with whole
sectors returns the cluster's bytes from `offset`, capped by the buffer. -/
theorem read_cluster_eq (v : VFat) (c off bufLen : Nat)
    (hbps : 1 ≤ v.bytes_per_sector) (hoff : off < v.cluster_size)
    (hstat : (v.fat_entry c).status.readable = true)
    (hsec : ∀ i, i < v.sectors_per_cluster →
      (v.sectorData (v.cluster_start_sector c + i)).length = v.bytes_per_sector) :
    v.read_cluster c off bufLen =
      Except.ok (((v.clusterBytes c).drop off).take bufLen) := by
  have hcs : off < v.sectors_per_cluster * v.bytes_per_sector := hoff
  have hso : off / v.bytes_per_sector < v.sectors_per_cluster :=
    (Nat.div_lt_iff_lt_mul (by omega)).mpr (by omega)
  have hsplit : (v.clusterBytes c).drop off =
      (v.sectorData (v.cluster_start_sector c + off / v.bytes_per_sector)).drop
        (off % v.bytes_per_sector) ++
      sectorsFrom v (v.cluster_start_sector c) (off / v.bytes_per_sector + 1)
        (v.sectors_per_cluster - (off / v.bytes_per_sector + 1)) := by
    have hdecomp : off = off / v.bytes_per_sector * v.bytes_per_sector +
        off % v.bytes_per_sector := by
      conv_lhs => rw [← Nat.div_add_mod off v.bytes_per_sector]
      rw [Nat.mul_comm]
    rw [VFat.clusterBytes]
    conv_lhs => rw [hdecomp]
    rw [← List.drop_drop,
      sectorsFrom_drop v _ (off / v.bytes_per_sector) v.sectors_per_cluster 0
        (by omega) (fun t ht => by
          rw [show (0 : Nat) + t = t by omega]
          exact hsec t (by omega))]
    rw [show (0 : Nat) + off / v.bytes_per_sector = off / v.bytes_per_sector by omega]
    obtain ⟨cnt, hcnt⟩ : ∃ cnt, v.sectors_per_cluster - off / v.bytes_per_sector =
        cnt + 1 := ⟨v.sectors_per_cluster - off / v.bytes_per_sector - 1, by omega⟩
    rw [hcnt, sectorsFrom, List.drop_append_eq_append_drop]
    have hlen := hsec (off / v.bytes_per_sector) hso
    have hmod : off % v.bytes_per_sector < v.bytes_per_sector := Nat.mod_lt _ (by omega)
    rw [hlen, show off % v.bytes_per_sector - v.bytes_per_sector = 0 by omega,
      List.drop_zero, show cnt = v.sectors_per_cluster -
        (off / v.bytes_per_sector + 1) by omega]
  unfold VFat.read_cluster
  cases hs : (v.fat_entry c).status with
  | Data next =>
    dsimp only
    rw [if_pos hso]
    congr 1
    obtain ⟨cnt, hcnt⟩ : ∃ cnt, v.sectors_per_cluster - off / v.bytes_per_sector =
        cnt + 1 := ⟨v.sectors_per_cluster - off / v.bytes_per_sector - 1, by omega⟩
    rw [hcnt, readSecLoop_head, hsplit,
      show cnt = v.sectors_per_cluster - (off / v.bytes_per_sector + 1) by omega]
    rfl
  | Eoc e =>
    dsimp only
    rw [if_pos hso]
    congr 1
    obtain ⟨cnt, hcnt⟩ : ∃ cnt, v.sectors_per_cluster - off / v.bytes_per_sector =
        cnt + 1 := ⟨v.sectors_per_cluster - off / v.bytes_per_sector - 1, by omega⟩
    rw [hcnt, readSecLoop_head, hsplit,
      show cnt = v.sectors_per_cluster - (off / v.bytes_per_sector + 1) by omega]
    rfl
  | Free => rw [hs] at hstat; simp [Status.readable] at hstat
  | Reserved => rw [hs] at hstat; simp [Status.readable] at hstat
  | Bad => rw [hs] at hstat; simp [Status.readable] at hstat

/-- Length of a whole chain's bytes. -/
theorem length_chainBytes (v : VFat) (L : List Nat)
    (hcb : ∀ j, j < L.length →
      (v.clusterBytes (L.getD j 0)).length = v.cluster_size) :
    (chainBytes v L).length = L.length * v.cluster_size := by
  induction L with
  | nil => simp [chainBytes]
  | cons c L ih =>
    rw [chainBytes, List.length_append, ih (fun j hj => by
      have h := hcb (j + 1) (by simpa using hj)
      simpa using h)]
    have h0 := hcb 0 (by simp)
    simp only [List.getD_cons_zero] at h0
    simp only [List.length_cons, Nat.succ_mul]
    omega

/-- Dropping `j` whole clusters from a chain's bytes. -/
theorem chainBytes_drop (v : VFat) (L : List Nat)
    (hcb : ∀ j, j < L.length →
      (v.clusterBytes (L.getD j 0)).length = v.cluster_size) :
    ∀ j, j ≤ L.length →
      (chainBytes v L).drop (j * v.cluster_size) = chainBytes v (L.drop j) := by
  induction L with
  | nil =>
    intro j hj
    obtain rfl : j = 0 := by simpa using hj
    simp
  | cons c L ih =>
    intro j hj
    cases j with
    | zero => simp
    | succ j =>
      rw [chainBytes, List.drop_append_eq_append_drop]
      have h0 := hcb 0 (by simp)
      simp only [List.getD_cons_zero] at h0
      have hge : (v.clusterBytes c).length ≤ (j + 1) * v.cluster_size := by
        rw [h0, Nat.succ_mul]
        omega
      rw [List.drop_eq_nil_of_le hge, List.nil_append, h0, Nat.succ_mul,
        show j * v.cluster_size + v.cluster_size - v.cluster_size =
          j * v.cluster_size by omega]
      rw [ih (fun t ht => by
        have h := hcb (t + 1) (by simpa using ht)
        simpa using h) j (by simpa using hj)]
      simp

/-- Dropping an arbitrary byte offset from a chain's bytes: the rest of the
offset's cluster followed by the following clusters. -/
theorem chainBytes_drop_offset (v : VFat) (L : List Nat)
    (hcs : 1 ≤ v.cluster_size)
    (hcb : ∀ j, j < L.length →
      (v.clusterBytes (L.getD j 0)).length = v.cluster_size)
    (o : Nat) (ho : o / v.cluster_size < L.length) :
    (chainBytes v L).drop o =
      (v.clusterBytes (L.getD (o / v.cluster_size) 0)).drop (o % v.cluster_size) ++
        chainBytes v (L.drop (o / v.cluster_size + 1)) := by
  have hdecomp : o = o / v.cluster_size * v.cluster_size + o % v.cluster_size := by
    conv_lhs => rw [← Nat.div_add_mod o v.cluster_size]
    rw [Nat.mul_comm]
  conv_lhs => rw [hdecomp]
  rw [← List.drop_drop, chainBytes_drop v L hcb (o / v.cluster_size) (by omega)]
  have hdropj : L.drop (o / v.cluster_size) =
      L.getD (o / v.cluster_size) 0 :: L.drop (o / v.cluster_size + 1) := by
    rw [List.getD_eq_getElem L 0 ho]
    exact List.drop_eq_getElem_cons ho
  rw [hdropj, chainBytes, List.drop_append_eq_append_drop]
  have h0 := hcb (o / v.cluster_size) ho
  have hmod : o % v.cluster_size < v.cluster_size := Nat.mod_lt _ (by omega)
  rw [h0, show o % v.cluster_size - v.cluster_size = 0 by omega, List.drop_zero]

/-- The `File::read` loop on a consistent file delivers exactly the file's
remaining content when the caller's buffer is exactly the remaining size. -/
theorem readLoop_content (v : VFat) (L : List Nat) (fs : Nat)
    (hbps : 1 ≤ v.bytes_per_sector) (hspc : 1 ≤ v.sectors_per_cluster)
    (hch : ChainExact v L fs) (hwf : SectorsWF v L) :
    ∀ fuel (f : File) (acc : List Nat),
      f.file_size = fs → f.absolute_offset < fs →
      f.curr_cluster = L.getD (f.absolute_offset / v.cluster_size) 0 →
      fs - f.absolute_offset + 1 ≤ fuel →
      ∃ f', readLoop v fuel f (fs - f.absolute_offset) acc =
        some (Except.ok (acc ++ (fileContent v L fs).drop f.absolute_offset), f') := by
  have hcs : 1 ≤ v.cluster_size := by
    have := Nat.mul_pos (show 0 < v.sectors_per_cluster by omega)
      (show 0 < v.bytes_per_sector by omega)
    unfold VFat.cluster_size
    omega
  obtain ⟨hm, hdata, heoc, hlo, hhi⟩ := hch
  have hcb : ∀ j, j < L.length →
      (v.clusterBytes (L.getD j 0)).length = v.cluster_size :=
    fun j hj => length_clusterBytes v _ (fun i hi => hwf j hj i hi)
  intro fuel
  induction fuel with
  | zero => intro f acc _ _ _ h4; omega
  | succ fuel ih =>
    intro f acc hfs hlt hcc hfuel
    have hjm : f.absolute_offset / v.cluster_size < L.length :=
      (Nat.div_lt_iff_lt_mul (by omega)).mpr (by omega)
    have hO : f.absolute_offset / v.cluster_size * v.cluster_size +
        f.absolute_offset % v.cluster_size = f.absolute_offset := by
      rw [Nat.mul_comm]
      exact Nat.div_add_mod f.absolute_offset _
    have hmod : f.absolute_offset % v.cluster_size < v.cluster_size :=
      Nat.mod_lt _ (by omega)
    have hsplit := chainBytes_drop_offset v L hcs hcb f.absolute_offset hjm
    have hlendrop : ((v.clusterBytes
        (L.getD (f.absolute_offset / v.cluster_size) 0)).drop
        (f.absolute_offset % v.cluster_size)).length =
        v.cluster_size - f.absolute_offset % v.cluster_size := by
      rw [List.length_drop, hcb _ hjm]
    have hcontent : (fileContent v L fs).drop f.absolute_offset =
        ((v.clusterBytes (L.getD (f.absolute_offset / v.cluster_size) 0)).drop
            (f.absolute_offset % v.cluster_size)).take (fs - f.absolute_offset) ++
          (chainBytes v (L.drop (f.absolute_offset / v.cluster_size + 1))).take
            (fs - f.absolute_offset -
              (v.cluster_size - f.absolute_offset % v.cluster_size)) := by
      rw [fileContent, List.drop_take, hsplit, List.take_append_eq_append_take,
        hlendrop]
    have hbytslen : (((v.clusterBytes
        (L.getD (f.absolute_offset / v.cluster_size) 0)).drop
        (f.absolute_offset % v.cluster_size)).take
        (fs - f.absolute_offset)).length =
        min (fs - f.absolute_offset)
          (v.cluster_size - f.absolute_offset % v.cluster_size) := by
      rw [List.length_take, hlendrop]
    by_cases hjlast : f.absolute_offset / v.cluster_size < L.length - 1
    · -- mid-chain cluster: FAT entry is Data, the loop crosses to the next
      have hst : (v.fat_entry
          (L.getD (f.absolute_offset / v.cluster_size) 0)).status =
          Status.Data ⟨L.getD (f.absolute_offset / v.cluster_size + 1) 0⟩ :=
        hdata _ hjlast
      have hrc := read_cluster_eq v
        (L.getD (f.absolute_offset / v.cluster_size) 0)
        (f.absolute_offset % v.cluster_size) (fs - f.absolute_offset) hbps hmod
        (by rw [hst]; rfl) (fun i hi => hwf _ hjm i hi)
      have hsucc : (f.absolute_offset / v.cluster_size + 1) * v.cluster_size =
          f.absolute_offset / v.cluster_size * v.cluster_size + v.cluster_size :=
        Nat.succ_mul _ _
      have hfs1 : (f.absolute_offset / v.cluster_size + 1) * v.cluster_size < fs := by
        have hle : (f.absolute_offset / v.cluster_size + 1) * v.cluster_size ≤
            (L.length - 1) * v.cluster_size :=
          Nat.mul_le_mul_right _ (by omega)
        omega
      have hrec := ih
        { f with
          absolute_offset := f.absolute_offset +
            (((v.clusterBytes (L.getD (f.absolute_offset / v.cluster_size) 0)).drop
              (f.absolute_offset % v.cluster_size)).take
              (fs - f.absolute_offset)).length
          curr_cluster := L.getD (f.absolute_offset / v.cluster_size + 1) 0 }
        (acc ++ ((v.clusterBytes (L.getD (f.absolute_offset / v.cluster_size) 0)).drop
          (f.absolute_offset % v.cluster_size)).take (fs - f.absolute_offset))
        (by dsimp only; exact hfs) (by dsimp only; omega)
        (by
          dsimp only
          rw [show f.absolute_offset + (((v.clusterBytes
              (L.getD (f.absolute_offset / v.cluster_size) 0)).drop
              (f.absolute_offset % v.cluster_size)).take
              (fs - f.absolute_offset)).length =
            (f.absolute_offset / v.cluster_size + 1) * v.cluster_size by omega]
          rw [Nat.mul_div_cancel _ (show 0 < v.cluster_size by omega)])
        (by dsimp only; omega)
      obtain ⟨f', hrec⟩ := hrec
      dsimp only at hrec
      have hXeq : f.absolute_offset +
          (List.take (fs - f.absolute_offset)
              (List.drop (f.absolute_offset % v.cluster_size)
                (v.clusterBytes (L.getD (f.absolute_offset / v.cluster_size) 0)))).length =
          (f.absolute_offset / v.cluster_size + 1) * v.cluster_size := by
        rw [hbytslen]
        omega
      refine ⟨f', ?_⟩
      rw [readLoop]
      split
      · omega
      · dsimp only
        rw [hcc, hrc]
        simp only [List.take_length, hst]
        rw [if_neg (show ¬ (f.absolute_offset +
            (List.take (fs - f.absolute_offset)
              (List.drop (f.absolute_offset % v.cluster_size)
                (v.clusterBytes (L.getD (f.absolute_offset / v.cluster_size) 0)))).length >
            f.file_size) by rw [hbytslen]; omega)]
        simp only [List.take_length]
        rw [if_pos (show (f.absolute_offset +
            (List.take (fs - f.absolute_offset)
              (List.drop (f.absolute_offset % v.cluster_size)
                (v.clusterBytes (L.getD (f.absolute_offset / v.cluster_size) 0)))).length) /
              v.cluster_size >
            (f.absolute_offset +
              (List.take (fs - f.absolute_offset)
              (List.drop (f.absolute_offset % v.cluster_size)
                (v.clusterBytes (L.getD (f.absolute_offset / v.cluster_size) 0)))).length -
              (List.take (fs - f.absolute_offset)
              (List.drop (f.absolute_offset % v.cluster_size)
                (v.clusterBytes (L.getD (f.absolute_offset / v.cluster_size) 0)))).length) /
              v.cluster_size by
          rw [Nat.add_sub_cancel, hXeq,
            Nat.mul_div_cancel _ (show 0 < v.cluster_size by omega)]
          omega)]
        rw [Nat.sub_sub, hrec]
        have htail : (fileContent v L fs).drop (f.absolute_offset +
            (List.take (fs - f.absolute_offset)
              (List.drop (f.absolute_offset % v.cluster_size)
                (v.clusterBytes (L.getD (f.absolute_offset / v.cluster_size) 0)))).length) =
            (chainBytes v (L.drop (f.absolute_offset / v.cluster_size + 1))).take
              (fs - (f.absolute_offset +
                (List.take (fs - f.absolute_offset)
              (List.drop (f.absolute_offset % v.cluster_size)
                (v.clusterBytes (L.getD (f.absolute_offset / v.cluster_size) 0)))).length)) := by
          conv_lhs => rw [fileContent, List.drop_take, hXeq]
          rw [chainBytes_drop v L hcb (f.absolute_offset / v.cluster_size + 1)
            (by omega), hXeq]
        rw [htail, hcontent,
          show fs - f.absolute_offset -
              (v.cluster_size - f.absolute_offset % v.cluster_size) =
            fs - (f.absolute_offset +
              (List.take (fs - f.absolute_offset)
              (List.drop (f.absolute_offset % v.cluster_size)
                (v.clusterBytes (L.getD (f.absolute_offset / v.cluster_size) 0)))).length) by
              rw [hbytslen]; omega,
          List.append_assoc]
    · -- last cluster: FAT entry is Eoc, the read ends exactly at file_size
      have hjeq : f.absolute_offset / v.cluster_size = L.length - 1 := by omega
      obtain ⟨e, hst⟩ : ∃ e, (v.fat_entry
          (L.getD (f.absolute_offset / v.cluster_size) 0)).status = Status.Eoc e := by
        rw [hjeq]
        cases hx : (v.fat_entry (L.getD (L.length - 1) 0)).status <;>
          rw [hx] at heoc <;> simp [Status.isEoc] at heoc <;> exact ⟨_, rfl⟩
      have hrc := read_cluster_eq v
        (L.getD (f.absolute_offset / v.cluster_size) 0)
        (f.absolute_offset % v.cluster_size) (fs - f.absolute_offset) hbps hmod
        (by rw [hst]; rfl) (fun i hi => hwf _ hjm i hi)
      have hml : L.length * v.cluster_size =
          (L.length - 1) * v.cluster_size + v.cluster_size := by
        conv_lhs => rw [show L.length = L.length - 1 + 1 by omega]
        rw [Nat.succ_mul]
      have hOj : (L.length - 1) * v.cluster_size +
          f.absolute_offset % v.cluster_size = f.absolute_offset := by
        rw [← hjeq]
        exact hO
      have hcov : fs - f.absolute_offset ≤
          v.cluster_size - f.absolute_offset % v.cluster_size := by omega
      refine ⟨{ f with absolute_offset := f.absolute_offset +
        (List.take (fs - f.absolute_offset)
          (List.drop (f.absolute_offset % v.cluster_size)
            (v.clusterBytes (L.getD (f.absolute_offset / v.cluster_size) 0)))).length }, ?_⟩
      rw [readLoop]
      split
      · omega
      · dsimp only
        rw [hcc, hrc]
        simp only [List.take_length, hst]
        rw [if_neg (show ¬ (f.absolute_offset +
            (List.take (fs - f.absolute_offset)
              (List.drop (f.absolute_offset % v.cluster_size)
                (v.clusterBytes (L.getD (f.absolute_offset / v.cluster_size) 0)))).length >
            f.file_size) by rw [hbytslen]; omega)]
        simp only [List.take_length]
        rw [if_neg (show ¬ (fs - f.absolute_offset -
            (List.take (fs - f.absolute_offset)
              (List.drop (f.absolute_offset % v.cluster_size)
                (v.clusterBytes (L.getD (f.absolute_offset / v.cluster_size) 0)))).length > 0 ∧
            f.absolute_offset +
              (List.take (fs - f.absolute_offset)
              (List.drop (f.absolute_offset % v.cluster_size)
                (v.clusterBytes (L.getD (f.absolute_offset / v.cluster_size) 0)))).length <
              f.file_size) by rw [hbytslen]; omega)]
        rw [hcontent,
          show fs - f.absolute_offset -
            (v.cluster_size - f.absolute_offset % v.cluster_size) = 0 by omega,
          List.take_zero, List.append_nil]

/-- C6: for a file of size `fs` whose `file_size` is consistent with its
cluster chain `L`, and any `k ≤ fs`: seeking to `k` from the start and then
reading to end-of-file yields exactly the bytes obtained by reading all `fs`
bytes from the start and discarding the first `k`. -/
theorem seek_then_read_consistency (v : VFat) (L : List Nat) (fs : Nat)
    (hbps : 1 ≤ v.bytes_per_sector) (hspc : 1 ≤ v.sectors_per_cluster)
    (hch : ChainExact v L fs) (hwf : SectorsWF v L)
    (f0 : File) (k : Nat)
    (hfs : f0.file_size = fs) (h0 : f0.absolute_offset = 0)
    (hsc : f0.start_cluster = L.getD 0 0) (hcc0 : f0.curr_cluster = L.getD 0 0)
    (hk : k ≤ fs) :
    ∃ f1 f2 f3 out1 out2,
      File.seek v f0 (SeekFrom.Start k) (L.length + 1) =
        some (Except.ok k, f1) ∧
      File.read v f1 (fs - k) (fs + 1) = some (Except.ok out1, f2) ∧
      File.read v f0 fs (fs + 1) = some (Except.ok out2, f3) ∧
      out1 = out2.drop k := by
  have hcs : 1 ≤ v.cluster_size := by
    have := Nat.mul_pos (show 0 < v.sectors_per_cluster by omega)
      (show 0 < v.bytes_per_sector by omega)
    unfold VFat.cluster_size
    omega
  obtain ⟨hm, hdata, heoc, hlo, hhi⟩ := hch
  have hcb : ∀ j, j < L.length →
      (v.clusterBytes (L.getD j 0)).length = v.cluster_size :=
    fun j hj => length_clusterBytes v _ (fun i hi => hwf j hj i hi)
  have hfs0 : 0 < fs := by omega
  have hfclen : (fileContent v L fs).length = fs := by
    rw [fileContent, List.length_take, length_chainBytes v L hcb]
    omega
  have hwalk := seekWalk_reaches v L fs hcs ⟨hm, hdata, heoc, hlo, hhi⟩ k hk
    (L.length + 1) 0 (Nat.zero_le _) (by omega)
  rw [Nat.zero_mul] at hwalk
  have hcand : seekCandidate f0 (SeekFrom.Start k) = Except.ok k := by
    unfold seekCandidate
    dsimp only
    rw [if_neg (show ¬ (k > f0.file_size) by omega)]
  have hseek : File.seek v f0 (SeekFrom.Start k) (L.length + 1) =
      some (Except.ok k, { f0 with
        absolute_offset := k
        curr_cluster := L.getD (min (k / v.cluster_size) (L.length - 1)) 0 }) := by
    unfold File.seek
    rw [hcand]
    dsimp only
    rw [hfs, hsc, hwalk]
  obtain ⟨f3, h3⟩ := readLoop_content v L fs hbps hspc
    ⟨hm, hdata, heoc, hlo, hhi⟩ hwf (fs + 1) f0 [] hfs (by omega)
    (by rw [hcc0, h0, Nat.zero_div]) (by omega)
  rw [h0] at h3
  simp only [Nat.sub_zero, List.drop_zero, List.nil_append] at h3
  have hread0 : File.read v f0 fs (fs + 1) =
      some (Except.ok (fileContent v L fs), f3) := by
    unfold File.read
    rw [if_neg (show ¬ (f0.absolute_offset = f0.file_size) by omega)]
    exact h3
  by_cases hkfs : k = fs
  · refine ⟨_, { f0 with
        absolute_offset := k
        curr_cluster := L.getD (min (k / v.cluster_size) (L.length - 1)) 0 }, f3,
      (fileContent v L fs).drop k, fileContent v L fs, hseek, ?_, hread0, rfl⟩
    unfold File.read
    split
    · rw [show (fileContent v L fs).drop k = [] from
        List.drop_eq_nil_of_le (by rw [hfclen]; omega)]
    · rename_i hNE
      exfalso
      apply hNE
      show k = f0.file_size
      omega
  · have hdiv : k / v.cluster_size < L.length :=
      (Nat.div_lt_iff_lt_mul (by omega)).mpr (by omega)
    have hmin : min (k / v.cluster_size) (L.length - 1) = k / v.cluster_size := by
      omega
    obtain ⟨f2, h2⟩ := readLoop_content v L fs hbps hspc
      ⟨hm, hdata, heoc, hlo, hhi⟩ hwf (fs + 1)
      { f0 with
        absolute_offset := k
        curr_cluster := L.getD (min (k / v.cluster_size) (L.length - 1)) 0 } []
      (show f0.file_size = fs from hfs) (show k < fs by omega)
      (show L.getD (min (k / v.cluster_size) (L.length - 1)) 0 =
        L.getD (k / v.cluster_size) 0 by rw [hmin])
      (show fs - k + 1 ≤ fs + 1 by omega)
    refine ⟨_, f2, f3,
      (fileContent v L fs).drop k, fileContent v L fs, hseek, ?_, hread0, rfl⟩
    unfold File.read
    split
    · rename_i hE
      exfalso
      have hE' : k = f0.file_size := hE
      omega
    · simp only [List.nil_append] at h2
      exact h2

/-- Concrete seek-then-read consistency on the 7-byte file `fW` over `vW`
with `k = 3`. -/
theorem seek_then_read_consistency_witness :
    ∃ f1 f2 f3 out1 out2,
      File.seek vW fW (SeekFrom.Start 3) 3 = some (Except.ok 3, f1) ∧
      File.read vW f1 4 8 = some (Except.ok out1, f2) ∧
      File.read vW fW 7 8 = some (Except.ok out2, f3) ∧
      out1 = out2.drop 3 :=
  seek_then_read_consistency vW [2, 3] 7 (by decide) (by decide)
    (by unfold ChainExact; exact ⟨by decide, by decide, by decide, by decide,
      by decide⟩)
    (by unfold SectorsWF; decide) fW 3 rfl rfl rfl rfl (by decide)

end Fat32
